import Mathlib

/-!
Shallow embedding of the `EventHub` publish/subscribe dispatcher
(TypeScript source: `eventhub.ts` plus `types.ts`).

Modelling conventions:
* Handler functions and context objects are opaque in the source (they are
  only called or compared by reference), so they are modelled by `Nat`
  identifiers.  Two registrations of the same function share one handler id.
* JavaScript listener-record objects have heap identity (`l !== listener`
  in the pruning code); the `lid` field models that identity.  `nextLid`
  in the hub allocates a fresh identity per registration, mirroring object
  allocation order.
* The JavaScript `Map` is insertion ordered; it is modelled by an
  association list with `mapGet`/`mapSet`/`mapDelete`/`mapKeys` mirroring
  `get`/`set`/`delete`/`keys`.
* Handlers are modelled as synchronous computations that either return or
  throw, via an environment `throws : Nat → Option Nat` giving each handler
  id an optional thrown error value.  For such handlers the source's
  `async` machinery (`Promise.all` versus sequential `await`) executes the
  wildcard fan-out to completion before the specific fan-out in both
  modes, which is exactly the order used here.
* The recursive dispatch of the `"error"` event inside `handleError` is
  given a fuel parameter to make the function total; fuel is consumed only
  when entering a nested error dispatch.
* Invocations are recorded in a trace: `Tr.call depth handler receiver args`
  records one handler invocation (receiver `none` meaning the hub itself,
  i.e. `listener.context || this`), and `Tr.dispatch depth event args`
  records the start of one `emit` (depth 0 for the caller's emit, depth
  `d + 1` for the error-event dispatch triggered at depth `d`).
-/

namespace EventHubModel

/-- A listener record, as built by `addListener`:
`{ handler, once, priority, context }`, plus `lid` modelling the record's
JavaScript object identity. -/
structure Listener where
  lid : Nat
  handler : Nat
  once : Bool
  priority : Int
  context : Option Nat
deriving DecidableEq, Repr

/-- The `Map<string, Listener[]>` of the source, as an insertion-ordered
association list. -/
abbrev EventMap := List (String × List Listener)

/-- `Map.get`. -/
def mapGet : EventMap → String → Option (List Listener)
  | [], _ => none
  | (k', v) :: rest, k => if k' = k then some v else mapGet rest k

/-- `Map.has`. -/
def mapHas (m : EventMap) (k : String) : Bool :=
  (mapGet m k).isSome

/-- `Map.set`: replace the value at an existing key in place, or append a
new entry at the end of the insertion order. -/
def mapSet : EventMap → String → List Listener → EventMap
  | [], k, v => [(k, v)]
  | (k', v') :: rest, k, v =>
    if k' = k then (k, v) :: rest else (k', v') :: mapSet rest k v

/-- `Map.delete`. -/
def mapDelete : EventMap → String → EventMap
  | [], _ => []
  | (k', v') :: rest, k =>
    if k' = k then mapDelete rest k else (k', v') :: mapDelete rest k

/-- `Map.keys` (used by `eventNames`). -/
def mapKeys (m : EventMap) : List String :=
  m.map (fun p => p.1)

/-- Constructor options (`EventHubOptions` in `types.ts`); `none` stands
for an omitted option. -/
structure EventHubOptions where
  maxListeners : Option Nat
  wildcard : Option Bool
  enableAsync : Option Bool
  debug : Option Bool
  nspace : Option String
deriving DecidableEq, Repr

/-- The dispatcher state: the `events` map, the separate wildcard listener
list, and the configuration fields.  `nextLid` models the allocation of
fresh record identities (see module comment). -/
structure EventHub where
  events : EventMap
  wildcardListeners : List Listener
  maxListeners : Nat
  wildcardEnabled : Bool
  asyncEnabled : Bool
  debugMode : Bool
  nspace : Option String
  nextLid : Nat
deriving DecidableEq, Repr

/-- The constructor: applies the `??` defaults
(`maxListeners: 10`, `wildcard: true`, `enableAsync: true`, `debug: false`). -/
def construct (o : EventHubOptions) : EventHub :=
  { events := []
    wildcardListeners := []
    maxListeners := o.maxListeners.getD 10
    wildcardEnabled := o.wildcard.getD true
    asyncEnabled := o.enableAsync.getD true
    debugMode := o.debug.getD false
    nspace := o.nspace
    nextLid := 0 }

/-- `reset()`: clear the map and the wildcard list. -/
def reset (h : EventHub) : EventHub :=
  { h with events := [], wildcardListeners := [] }

/-- `hasEvent(event)`. -/
def hasEvent (h : EventHub) (event : String) : Bool :=
  if event = "*" ∧ h.wildcardEnabled = true then
    decide (0 < h.wildcardListeners.length)
  else
    mapHas h.events event

/-- `listenerCount(event)`. -/
def listenerCount (h : EventHub) (event : String) : Nat :=
  if event = "*" ∧ h.wildcardEnabled = true then
    h.wildcardListeners.length
  else
    ((mapGet h.events event).getD []).length

/-- `eventNames()`. -/
def eventNames (h : EventHub) : List String :=
  mapKeys h.events

/-- `insertListenerByPriority`: insert before the first record whose
priority is strictly smaller than the new record's, else append. -/
def insertListenerByPriority : List Listener → Listener → List Listener
  | [], nl => [nl]
  | l :: ls, nl =>
    if l.priority < nl.priority then nl :: l :: ls
    else l :: insertListenerByPriority ls nl

/-- `addListener` (private): silently drop a wildcard registration when
wildcard support is disabled; otherwise build the record and insert it by
priority into the wildcard list or the named event's list (creating the
map entry when absent).  The max-listeners check only logs a warning and
has no state effect, so it does not appear here. -/
def addListener (h : EventHub) (event : String) (handler : Nat)
    (once : Bool) (context : Option Nat) (priority : Int) : EventHub :=
  if event = "*" ∧ h.wildcardEnabled = false then h
  else
    let l : Listener :=
      { lid := h.nextLid, handler := handler, once := once
        priority := priority, context := context }
    if event = "*" then
      { h with
        wildcardListeners := insertListenerByPriority h.wildcardListeners l
        nextLid := h.nextLid + 1 }
    else
      { h with
        events := mapSet h.events event
          (insertListenerByPriority ((mapGet h.events event).getD []) l)
        nextLid := h.nextLid + 1 }

/-- `on(event, handler, context?, priority = 0)`. -/
def on' (h : EventHub) (event : String) (handler : Nat)
    (context : Option Nat) (priority : Int) : EventHub :=
  addListener h event handler false context priority

/-- `once(event, handler, context?, priority = 0)`. -/
def once (h : EventHub) (event : String) (handler : Nat)
    (context : Option Nat) (priority : Int) : EventHub :=
  addListener h event handler true context priority

/-- `off(event?, handler?)`: no event → `reset`; wildcard token with
wildcard support enabled → filter or clear the wildcard list; otherwise
filter the named event's list by handler reference, or delete the map
entry when no handler is given. -/
def off (h : EventHub) (event : Option String) (handler : Option Nat) :
    EventHub :=
  match event with
  | Option.none => reset h
  | Option.some e =>
    if e = "*" ∧ h.wildcardEnabled = true then
      match handler with
      | Option.some f =>
        { h with
          wildcardListeners :=
            h.wildcardListeners.filter (fun l => l.handler != f) }
      | Option.none => { h with wildcardListeners := [] }
    else
      match handler with
      | Option.some f =>
        match mapGet h.events e with
        | Option.some ls =>
          { h with
            events := mapSet h.events e (ls.filter (fun l => l.handler != f)) }
        | Option.none => h
      | Option.none => { h with events := mapDelete h.events e }

/-- `setMaxListeners(n)`. -/
def setMaxListeners (h : EventHub) (n : Nat) : EventHub :=
  { h with maxListeners := n }

/-- An argument value passed to a handler: an event-name string (the name
prepended for wildcard handlers, or the original event name forwarded to
error-event handlers), an opaque payload value, a thrown error value, or a
handler function reference (as forwarded to error-event handlers). -/
inductive Arg where
  | str : String → Arg
  | val : Nat → Arg
  | errVal : Nat → Arg
  | handlerRef : Nat → Arg
deriving DecidableEq, Repr

/-- One observable step of a dispatch (see the module comment). -/
inductive Tr where
  | call : Nat → Nat → Option Nat → List Arg → Tr
  | dispatch : Nat → String → List Arg → Tr
deriving DecidableEq, Repr

/-- The depth tag of a trace entry. -/
def trDepth : Tr → Nat
  | Tr.call d _ _ _ => d
  | Tr.dispatch d _ _ => d

/-- The one-shot removal step of `processWildcardListeners`:
`this.wildcardListeners = this.wildcardListeners.filter(l => l !== listener)`,
with reference identity modelled by `lid`. -/
def pruneWild (h : EventHub) (lid : Nat) : EventHub :=
  { h with
    wildcardListeners := h.wildcardListeners.filter (fun x => x.lid != lid) }

/-- The one-shot removal step of `processSpecificListeners`:
`this.events.set(event, (this.events.get(event) || []).filter(l => l !== listener))`,
with reference identity modelled by `lid`. -/
def pruneSpec (h : EventHub) (event : String) (lid : Nat) : EventHub :=
  { h with
    events := mapSet h.events event
      (((mapGet h.events event).getD []).filter (fun x => x.lid != lid)) }

/-- The loop body of `processWildcardListeners`: iterate over the snapshot
`snap`, invoking each record with the event name prepended and the record's
context as receiver; on success prune a one-shot record from the live
wildcard list by identity; on a throw, run the error path `he` and keep
iterating.  `he` abstracts `handleError` (state, error value, handler). -/
def wildLoop (he : EventHub → Nat → Nat → EventHub × List Tr)
    (throws : Nat → Option Nat) (depth : Nat) (event : String)
    (args : List Arg) : EventHub → List Listener → EventHub × List Tr
  | h, [] => (h, [])
  | h, l :: rest =>
    let c := Tr.call depth l.handler l.context (Arg.str event :: args)
    match throws l.handler with
    | Option.none =>
      let h' := if l.once then pruneWild h l.lid else h
      let r := wildLoop he throws depth event args h' rest
      (r.1, c :: r.2)
    | Option.some err =>
      let r1 := he h err l.handler
      let r2 := wildLoop he throws depth event args r1.1 rest
      (r2.1, c :: (r1.2 ++ r2.2))

/-- The loop body of `processSpecificListeners`: like `wildLoop` but the
arguments are passed unchanged and a successful one-shot record is pruned
from the live map entry for `event`. -/
def specLoop (he : EventHub → Nat → Nat → EventHub × List Tr)
    (throws : Nat → Option Nat) (depth : Nat) (event : String)
    (args : List Arg) : EventHub → List Listener → EventHub × List Tr
  | h, [] => (h, [])
  | h, l :: rest =>
    let c := Tr.call depth l.handler l.context args
    match throws l.handler with
    | Option.none =>
      let h' := if l.once then pruneSpec h event l.lid else h
      let r := specLoop he throws depth event args h' rest
      (r.1, c :: r.2)
    | Option.some err =>
      let r1 := he h err l.handler
      let r2 := specLoop he throws depth event args r1.1 rest
      (r2.1, c :: (r1.2 ++ r2.2))

/-- `processWildcardListeners`: no-op when the wildcard list is empty,
else iterate over a snapshot of it.  (The wildcard-enabled check lives in
`emit` in the source and is folded in here.) -/
def wildPhase (he : EventHub → Nat → Nat → EventHub × List Tr)
    (throws : Nat → Option Nat) (depth : Nat) (event : String)
    (args : List Arg) (h : EventHub) : EventHub × List Tr :=
  if h.wildcardEnabled then
    if h.wildcardListeners.length = 0 then (h, [])
    else wildLoop he throws depth event args h h.wildcardListeners
  else (h, [])

/-- `processSpecificListeners`: return when the map has no entry for the
event, else iterate over a snapshot of the entry. -/
def specPhase (he : EventHub → Nat → Nat → EventHub × List Tr)
    (throws : Nat → Option Nat) (depth : Nat) (event : String)
    (args : List Arg) (h : EventHub) : EventHub × List Tr :=
  match mapGet h.events event with
  | Option.none => (h, [])
  | Option.some ls => specLoop he throws depth event args h ls

/-- `emit(event, ...args)` with fuel: run the wildcard fan-out then the
specific fan-out (the order taken by the source for synchronous handlers
in both async modes) and resolve to `true`.  The error path is
`handleError`: when the `"error"` key is present in the map, run a nested
`emit('error', error, event, handler)` whose own failure and result are
discarded; otherwise only log.  At fuel 0 (never reached from a
sufficiently fuelled caller) the dispatch yields no trace and `false`. -/
def emitFuel (throws : Nat → Option Nat) :
    Nat → Nat → EventHub → String → List Arg → EventHub × List Tr × Bool
  | 0, _, h, _, _ => (h, [], false)
  | fuel + 1, depth, h, event, args =>
    let he : EventHub → Nat → Nat → EventHub × List Tr :=
      fun h' err hd =>
        if mapHas h'.events "error" then
          let r := emitFuel throws fuel (depth + 1) h' "error"
            [Arg.errVal err, Arg.str event, Arg.handlerRef hd]
          (r.1, r.2.1)
        else (h', [])
    let r1 := wildPhase he throws depth event args h
    let r2 := specPhase he throws depth event args r1.1
    (r2.1, Tr.dispatch depth event args :: (r1.2 ++ r2.2), true)

/-- `handleError` (private), fuelled: re-dispatch on the `"error"` event
when the map has that key, else only log. -/
def handleErrorF (throws : Nat → Option Nat) (fuel depth : Nat)
    (event : String) (h : EventHub) (err hd : Nat) : EventHub × List Tr :=
  if mapHas h.events "error" then
    let r := emitFuel throws fuel (depth + 1) h "error"
      [Arg.errVal err, Arg.str event, Arg.handlerRef hd]
    (r.1, r.2.1)
  else (h, [])

/-- Public `emit`, at dispatch depth 0. -/
def emit (throws : Nat → Option Nat) (fuel : Nat) (h : EventHub)
    (event : String) (args : List Arg) : EventHub × List Tr × Bool :=
  emitFuel throws fuel 0 h event args

/-- Unfolding of `emitFuel` at positive fuel in terms of `handleErrorF`. -/
theorem emitFuel_succ (throws : Nat → Option Nat) (fuel depth : Nat)
    (h : EventHub) (event : String) (args : List Arg) :
    emitFuel throws (fuel + 1) depth h event args =
      (let he := handleErrorF throws fuel depth event
       let r1 := wildPhase he throws depth event args h
       let r2 := specPhase he throws depth event args r1.1
       (r2.1, Tr.dispatch depth event args :: (r1.2 ++ r2.2), true)) := rfl

/-- The dispatcher states reachable through the public interface from a
freshly constructed instance. -/
inductive Reachable : EventHub → Prop where
  | init (o : EventHubOptions) : Reachable (construct o)
  | step_on (h : EventHub) (e : String) (f : Nat) (c : Option Nat) (p : Int) :
      Reachable h → Reachable (on' h e f c p)
  | step_once (h : EventHub) (e : String) (f : Nat) (c : Option Nat) (p : Int) :
      Reachable h → Reachable (once h e f c p)
  | step_off (h : EventHub) (e : Option String) (f : Option Nat) :
      Reachable h → Reachable (off h e f)
  | step_emit (h : EventHub) (throws : Nat → Option Nat) (fuel : Nat)
      (e : String) (a : List Arg) :
      Reachable h → Reachable (emit throws fuel h e a).1
  | step_reset (h : EventHub) : Reachable h → Reachable (reset h)
  | step_setMax (h : EventHub) (n : Nat) :
      Reachable h → Reachable (setMaxListeners h n)

theorem mapGet_mapSet_self (m : EventMap) (k : String) (v : List Listener) :
    mapGet (mapSet m k v) k = some v := by
  induction m with
  | nil => simp [mapSet, mapGet]
  | cons p rest ih =>
    obtain ⟨k', v'⟩ := p
    by_cases hk : k' = k
    · simp [mapSet, hk, mapGet]
    · simp [mapSet, hk, mapGet, ih]

theorem mapGet_mapSet_ne (m : EventMap) (k : String) (v : List Listener)
    (k' : String) (h : k' ≠ k) :
    mapGet (mapSet m k v) k' = mapGet m k' := by
  induction m with
  | nil => simp [mapSet, mapGet, Ne.symm h]
  | cons p rest ih =>
    obtain ⟨k'', v''⟩ := p
    by_cases hk : k'' = k
    · subst hk
      simp [mapSet, mapGet, Ne.symm h, h]
    · simp only [mapSet, if_neg hk, mapGet]
      by_cases hk2 : k'' = k'
      · simp [hk2]
      · simp [hk2, ih]

theorem mapHas_mapSet_self (m : EventMap) (k : String) (v : List Listener) :
    mapHas (mapSet m k v) k = true := by
  simp [mapHas, mapGet_mapSet_self]

theorem mapHas_mapSet_ne (m : EventMap) (k : String) (v : List Listener)
    (k' : String) (h : k' ≠ k) :
    mapHas (mapSet m k v) k' = mapHas m k' := by
  simp [mapHas, mapGet_mapSet_ne m k v k' h]

theorem mapHas_mapSet_of_has (m : EventMap) (k : String) (v : List Listener)
    (hk : mapHas m k = true) (k' : String) :
    mapHas (mapSet m k v) k' = mapHas m k' := by
  by_cases h : k' = k
  · subst h
    simp [mapHas_mapSet_self, hk]
  · exact mapHas_mapSet_ne m k v k' h

theorem mapHas_mapSet_true (m : EventMap) (k k' : String) (v : List Listener)
    (hk : mapHas m k' = true) : mapHas (mapSet m k v) k' = true := by
  by_cases h : k' = k
  · subst h; exact mapHas_mapSet_self m k' v
  · rw [mapHas_mapSet_ne m k v k' h]; exact hk

theorem mapGet_mapDelete_self (m : EventMap) (k : String) :
    mapGet (mapDelete m k) k = none := by
  induction m with
  | nil => simp [mapDelete, mapGet]
  | cons p rest ih =>
    obtain ⟨k', v'⟩ := p
    by_cases hk : k' = k
    · simp [mapDelete, hk, ih]
    · simp [mapDelete, hk, mapGet, ih]

theorem mapGet_mapDelete_ne (m : EventMap) (k k' : String) (h : k' ≠ k) :
    mapGet (mapDelete m k) k' = mapGet m k' := by
  induction m with
  | nil => simp [mapDelete]
  | cons p rest ih =>
    obtain ⟨k'', v''⟩ := p
    by_cases hk : k'' = k
    · subst hk
      simp [mapDelete, mapGet, Ne.symm h, ih]
    · simp only [mapDelete, if_neg hk, mapGet]
      by_cases hk2 : k'' = k'
      · simp [hk2]
      · simp [hk2, ih]

theorem mapHas_iff_mem_mapKeys (m : EventMap) (k : String) :
    mapHas m k = true ↔ k ∈ mapKeys m := by
  induction m with
  | nil => simp [mapHas, mapGet, mapKeys]
  | cons p rest ih =>
    obtain ⟨k', v'⟩ := p
    by_cases hk : k' = k
    · subst hk; simp [mapHas, mapGet, mapKeys]
    · have hstep : mapHas ((k', v') :: rest) k = mapHas rest k := by
        simp [mapHas, mapGet, hk]
      rw [hstep, ih]
      simp [mapKeys, Ne.symm hk]

theorem mapHas_of_mapGet_some (m : EventMap) (k : String) (v : List Listener)
    (h : mapGet m k = some v) : mapHas m k = true := by
  simp [mapHas, h]

theorem mem_insertListenerByPriority (ls : List Listener) (nl x : Listener)
    (hx : x ∈ insertListenerByPriority ls nl) : x = nl ∨ x ∈ ls := by
  induction ls with
  | nil => simpa [insertListenerByPriority] using hx
  | cons l rest ih =>
    by_cases hp : l.priority < nl.priority
    · simp only [insertListenerByPriority, if_pos hp, List.mem_cons] at hx
      rcases hx with h1 | h1 | h1
      · exact Or.inl h1
      · exact Or.inr (by simp [h1])
      · exact Or.inr (List.mem_cons_of_mem _ h1)
    · simp only [insertListenerByPriority, if_neg hp, List.mem_cons] at hx
      rcases hx with h1 | h1
      · exact Or.inr (by simp [h1])
      · rcases ih h1 with h2 | h2
        · exact Or.inl h2
        · exact Or.inr (List.mem_cons_of_mem _ h2)

theorem self_mem_insertListenerByPriority (ls : List Listener) (nl : Listener) :
    nl ∈ insertListenerByPriority ls nl := by
  induction ls with
  | nil => simp [insertListenerByPriority]
  | cons l rest ih =>
    by_cases hp : l.priority < nl.priority
    · simp [insertListenerByPriority, if_pos hp]
    · simp only [insertListenerByPriority, if_neg hp, List.mem_cons]
      exact Or.inr ih

theorem length_insertListenerByPriority (ls : List Listener) (nl : Listener) :
    (insertListenerByPriority ls nl).length = ls.length + 1 := by
  induction ls with
  | nil => simp [insertListenerByPriority]
  | cons l rest ih =>
    by_cases hp : l.priority < nl.priority
    · simp [insertListenerByPriority, if_pos hp]
    · simp only [insertListenerByPriority, if_neg hp, List.length_cons, ih]

/-- The order invariant on a listener sequence, record by record: later
records have a priority that is not larger, and an equal-priority later
record has a larger identity, i.e. was registered later (stability). -/
def priOrder (a b : Listener) : Prop :=
  b.priority ≤ a.priority ∧ (b.priority = a.priority → a.lid < b.lid)

/-- A sequence sorted by non-increasing priority, equal priorities in
registration order. -/
def StableSorted (ls : List Listener) : Prop :=
  List.Pairwise priOrder ls

theorem insertListenerByPriority_stable (ls : List Listener) (nl : Listener)
    (hs : StableSorted ls) (hb : ∀ x ∈ ls, x.lid < nl.lid) :
    StableSorted (insertListenerByPriority ls nl) := by
  induction ls with
  | nil => simp [insertListenerByPriority, StableSorted]
  | cons l rest ih =>
    rw [StableSorted, List.pairwise_cons] at hs
    obtain ⟨hl, hrest⟩ := hs
    by_cases hp : l.priority < nl.priority
    · rw [StableSorted, insertListenerByPriority, if_pos hp]
      rw [List.pairwise_cons]
      constructor
      · intro y hy
        rcases List.mem_cons.mp hy with h1 | h1
        · subst h1
          exact ⟨le_of_lt hp, fun he => absurd he (ne_of_lt hp)⟩
        · have h2 := hl y h1
          refine ⟨le_trans h2.1 (le_of_lt hp), fun he => ?_⟩
          exact absurd (lt_of_le_of_lt (he ▸ h2.1) hp) (lt_irrefl _)
      · rw [List.pairwise_cons]
        exact ⟨hl, hrest⟩
    · rw [StableSorted, insertListenerByPriority, if_neg hp]
      rw [List.pairwise_cons]
      constructor
      · intro y hy
        rcases mem_insertListenerByPriority rest nl y hy with h1 | h1
        · subst h1
          exact ⟨le_of_not_lt hp, fun _ => hb l (List.mem_cons_self l rest)⟩
        · exact hl y h1
      · exact ih hrest (fun x hx => hb x (List.mem_cons_of_mem _ hx))

/-- Every listener sequence of the hub (each map entry and the wildcard
list) satisfies the order invariant. -/
def ListsInv (h : EventHub) : Prop :=
  (∀ k, StableSorted ((mapGet h.events k).getD [])) ∧
  StableSorted h.wildcardListeners

/-- Every stored record identity is below the allocation counter. -/
def LidBound (h : EventHub) : Prop :=
  (∀ k, ∀ l ∈ (mapGet h.events k).getD [], l.lid < h.nextLid) ∧
  ∀ l ∈ h.wildcardListeners, l.lid < h.nextLid

/-- When wildcard support is disabled the map never holds a `"*"` entry
(such a registration is silently dropped before touching the map). -/
def WildKeyInv (h : EventHub) : Prop :=
  h.wildcardEnabled = false → mapHas h.events "*" = false

/-- The combined state invariant carried through reachability. -/
def Inv (h : EventHub) : Prop :=
  ListsInv h ∧ LidBound h ∧ WildKeyInv h

/-- What a dispatch can do to the registry: it never adds or removes map
keys, only deletes records from existing sequences (keeping their order),
and leaves the allocation counter and every configuration field alone. -/
def Evolves (h h' : EventHub) : Prop :=
  (∀ k, mapHas h'.events k = mapHas h.events k) ∧
  (∀ k, List.Sublist ((mapGet h'.events k).getD [])
      ((mapGet h.events k).getD [])) ∧
  List.Sublist h'.wildcardListeners h.wildcardListeners ∧
  h'.nextLid = h.nextLid ∧
  h'.maxListeners = h.maxListeners ∧
  h'.wildcardEnabled = h.wildcardEnabled ∧
  h'.asyncEnabled = h.asyncEnabled ∧
  h'.debugMode = h.debugMode ∧
  h'.nspace = h.nspace

theorem evolves_refl (h : EventHub) : Evolves h h :=
  ⟨fun _ => rfl, fun _ => List.Sublist.refl _, List.Sublist.refl _,
    rfl, rfl, rfl, rfl, rfl, rfl⟩

theorem evolves_trans {h1 h2 h3 : EventHub}
    (a : Evolves h1 h2) (b : Evolves h2 h3) : Evolves h1 h3 := by
  obtain ⟨a1, a2, a3, a4, a5, a6, a7, a8, a9⟩ := a
  obtain ⟨b1, b2, b3, b4, b5, b6, b7, b8, b9⟩ := b
  exact ⟨fun k => (b1 k).trans (a1 k),
    fun k => (b2 k).trans (a2 k), b3.trans a3,
    b4.trans a4, b5.trans a5, b6.trans a6, b7.trans a7,
    b8.trans a8, b9.trans a9⟩

theorem pruneSpec_mapGet_self (h : EventHub) (event : String) (lid : Nat) :
    mapGet (pruneSpec h event lid).events event
      = some (((mapGet h.events event).getD []).filter
          (fun x => x.lid != lid)) :=
  mapGet_mapSet_self _ _ _

theorem pruneSpec_mapGet_ne (h : EventHub) (event : String) (lid : Nat)
    (k : String) (hk : k ≠ event) :
    mapGet (pruneSpec h event lid).events k = mapGet h.events k :=
  mapGet_mapSet_ne _ _ _ _ hk

theorem pruneSpec_mapHas_self (h : EventHub) (event : String) (lid : Nat) :
    mapHas (pruneSpec h event lid).events event = true :=
  mapHas_mapSet_self _ _ _

theorem pruneSpec_mapHas_true (h : EventHub) (event : String) (lid : Nat)
    (k : String) (hk : mapHas h.events k = true) :
    mapHas (pruneSpec h event lid).events k = true :=
  mapHas_mapSet_true _ _ _ _ hk

/-- Pruning a map entry that is present (the specific one-shot removal
step) is an evolution. -/
theorem evolves_prune_spec (h : EventHub) (event : String) (lid : Nat)
    (hk : mapHas h.events event = true) :
    Evolves h (pruneSpec h event lid) := by
  refine ⟨?_, ?_, List.Sublist.refl _, rfl, rfl, rfl, rfl, rfl, rfl⟩
  · intro k
    exact mapHas_mapSet_of_has h.events event _ hk k
  · intro k
    by_cases he : k = event
    · subst he
      rw [pruneSpec_mapGet_self]
      exact List.filter_sublist _
    · rw [pruneSpec_mapGet_ne h event lid k he]

/-- Pruning the wildcard list (the wildcard one-shot removal step) is an
evolution. -/
theorem evolves_prune_wild (h : EventHub) (lid : Nat) :
    Evolves h (pruneWild h lid) :=
  ⟨fun _ => rfl, fun _ => List.Sublist.refl _, List.filter_sublist _,
    rfl, rfl, rfl, rfl, rfl, rfl⟩

theorem specLoop_evolves (he : EventHub → Nat → Nat → EventHub × List Tr)
    (throws : Nat → Option Nat) (depth : Nat) (event : String)
    (args : List Arg) (Hhe : ∀ h err hd, Evolves h (he h err hd).1) :
    ∀ (snap : List Listener) (h : EventHub),
      mapHas h.events event = true →
      Evolves h (specLoop he throws depth event args h snap).1 := by
  intro snap
  induction snap with
  | nil =>
    intro h _
    exact evolves_refl h
  | cons l rest ih =>
    intro h hk
    simp only [specLoop]
    cases hth : throws l.handler with
    | none =>
      by_cases ho : l.once = true
      · rw [if_pos ho]
        exact evolves_trans
          (evolves_prune_spec h event l.lid hk)
          (ih _ (pruneSpec_mapHas_self h event l.lid))
      · rw [if_neg ho]
        exact ih h hk
    | some err =>
      have e1 := Hhe h err l.handler
      have hk' : mapHas (he h err l.handler).1.events event = true := by
        rw [e1.1 event]; exact hk
      exact evolves_trans e1 (ih _ hk')

theorem wildLoop_evolves (he : EventHub → Nat → Nat → EventHub × List Tr)
    (throws : Nat → Option Nat) (depth : Nat) (event : String)
    (args : List Arg) (Hhe : ∀ h err hd, Evolves h (he h err hd).1) :
    ∀ (snap : List Listener) (h : EventHub),
      Evolves h (wildLoop he throws depth event args h snap).1 := by
  intro snap
  induction snap with
  | nil =>
    intro h
    exact evolves_refl h
  | cons l rest ih =>
    intro h
    simp only [wildLoop]
    cases hth : throws l.handler with
    | none =>
      by_cases ho : l.once = true
      · rw [if_pos ho]
        exact evolves_trans (evolves_prune_wild h l.lid) (ih _)
      · rw [if_neg ho]
        exact ih h
    | some err =>
      exact evolves_trans (Hhe h err l.handler) (ih _)

theorem wildPhase_evolves (he : EventHub → Nat → Nat → EventHub × List Tr)
    (throws : Nat → Option Nat) (depth : Nat) (event : String)
    (args : List Arg) (Hhe : ∀ h err hd, Evolves h (he h err hd).1)
    (h : EventHub) : Evolves h (wildPhase he throws depth event args h).1 := by
  unfold wildPhase
  by_cases hw : h.wildcardEnabled
  · simp only [hw, if_true]
    by_cases hl : h.wildcardListeners.length = 0
    · simp only [hl, if_pos rfl]
      exact evolves_refl h
    · simp only [if_neg hl]
      exact wildLoop_evolves he throws depth event args Hhe _ h
  · simp only [hw, if_false]
    exact evolves_refl h

theorem specPhase_evolves (he : EventHub → Nat → Nat → EventHub × List Tr)
    (throws : Nat → Option Nat) (depth : Nat) (event : String)
    (args : List Arg) (Hhe : ∀ h err hd, Evolves h (he h err hd).1)
    (h : EventHub) : Evolves h (specPhase he throws depth event args h).1 := by
  unfold specPhase
  cases hg : mapGet h.events event with
  | none => exact evolves_refl h
  | some ls =>
    exact specLoop_evolves he throws depth event args Hhe ls h
      (mapHas_of_mapGet_some _ _ _ hg)

theorem emitFuel_evolves (throws : Nat → Option Nat) :
    ∀ (fuel depth : Nat) (h : EventHub) (event : String) (args : List Arg),
      Evolves h (emitFuel throws fuel depth h event args).1 := by
  intro fuel
  induction fuel with
  | zero =>
    intro depth h event args
    exact evolves_refl h
  | succ fuel ih =>
    intro depth h event args
    have Hhe : ∀ (h' : EventHub) (err hd : Nat),
        Evolves h' (handleErrorF throws fuel depth event h' err hd).1 := by
      intro h' err hd
      unfold handleErrorF
      by_cases hh : mapHas h'.events "error" = true
      · simp only [hh, if_true]
        exact ih (depth + 1) h' "error" _
      · simp only [hh, if_false]
        exact evolves_refl h'
    rw [emitFuel_succ]
    exact evolves_trans
      (wildPhase_evolves _ throws depth event args Hhe h)
      (specPhase_evolves _ throws depth event args Hhe _)

theorem stableSorted_filter (ls : List Listener) (p : Listener → Bool)
    (hs : StableSorted ls) : StableSorted (ls.filter p) :=
  List.Pairwise.sublist (List.filter_sublist ls) hs

theorem inv_of_evolves {h h' : EventHub} (e : Evolves h h') (hi : Inv h) :
    Inv h' := by
  obtain ⟨e1, e2, e3, e4, _, e6, _, _, _⟩ := e
  obtain ⟨⟨li1, li2⟩, ⟨lb1, lb2⟩, wk⟩ := hi
  refine ⟨⟨?_, ?_⟩, ⟨?_, ?_⟩, ?_⟩
  · intro k
    exact List.Pairwise.sublist (e2 k) (li1 k)
  · exact List.Pairwise.sublist e3 li2
  · intro k l hl
    rw [e4]
    exact lb1 k l ((e2 k).subset hl)
  · intro l hl
    rw [e4]
    exact lb2 l (e3.subset hl)
  · intro hw
    rw [e1]
    exact wk (by rw [← e6]; exact hw)

/-- Unfolding of `addListener` in the silently-dropped wildcard case. -/
theorem addListener_wildcard_disabled (h : EventHub) (f : Nat) (o : Bool)
    (c : Option Nat) (p : Int) (hw : h.wildcardEnabled = false) :
    addListener h "*" f o c p = h := by
  simp [addListener, hw]

/-- Unfolding of `addListener` in the wildcard-registration case. -/
theorem addListener_wild (h : EventHub) (f : Nat) (o : Bool)
    (c : Option Nat) (p : Int) (hw : h.wildcardEnabled = true) :
    addListener h "*" f o c p =
      { h with
        wildcardListeners := insertListenerByPriority h.wildcardListeners
          ⟨h.nextLid, f, o, p, c⟩
        nextLid := h.nextLid + 1 } := by
  simp [addListener, hw]

/-- Unfolding of `addListener` in the named-event case. -/
theorem addListener_named (h : EventHub) (event : String) (f : Nat)
    (o : Bool) (c : Option Nat) (p : Int) (hne : event ≠ "*") :
    addListener h event f o c p =
      { h with
        events := mapSet h.events event
          (insertListenerByPriority ((mapGet h.events event).getD [])
            ⟨h.nextLid, f, o, p, c⟩)
        nextLid := h.nextLid + 1 } := by
  simp [addListener, hne]

theorem addListener_inv (h : EventHub) (event : String) (f : Nat) (o : Bool)
    (c : Option Nat) (p : Int) (hi : Inv h) :
    Inv (addListener h event f o c p) := by
  obtain ⟨⟨li1, li2⟩, ⟨lb1, lb2⟩, wk⟩ := hi
  by_cases h2 : event = "*"
  · subst h2
    cases hw : h.wildcardEnabled with
    | false =>
      rw [addListener_wildcard_disabled h f o c p hw]
      exact ⟨⟨li1, li2⟩, ⟨lb1, lb2⟩, wk⟩
    | true =>
      rw [addListener_wild h f o c p hw]
      refine ⟨⟨li1, ?_⟩, ⟨?_, ?_⟩, ?_⟩
      · exact insertListenerByPriority_stable _ _ li2 lb2
      · intro k l hl
        exact Nat.lt_succ_of_lt (lb1 k l hl)
      · intro l hl
        rcases mem_insertListenerByPriority _ _ _ hl with h3 | h3
        · subst h3
          exact Nat.lt_succ_self _
        · exact Nat.lt_succ_of_lt (lb2 l h3)
      · intro hw'
        simp only at hw'
        rw [hw] at hw'
        exact absurd hw' (by simp)
  · rw [addListener_named h event f o c p h2]
    refine ⟨⟨?_, li2⟩, ⟨?_, ?_⟩, ?_⟩
    · intro k
      by_cases hk : k = event
      · subst hk
        rw [mapGet_mapSet_self]
        exact insertListenerByPriority_stable _ _ (li1 k) (lb1 k)
      · rw [mapGet_mapSet_ne h.events event _ k hk]
        exact li1 k
    · intro k l hl
      by_cases hk : k = event
      · subst hk
        rw [mapGet_mapSet_self] at hl
        simp only [Option.getD_some] at hl
        rcases mem_insertListenerByPriority _ _ _ hl with h3 | h3
        · subst h3
          exact Nat.lt_succ_self _
        · exact Nat.lt_succ_of_lt (lb1 k l h3)
      · rw [mapGet_mapSet_ne h.events event _ k hk] at hl
        exact Nat.lt_succ_of_lt (lb1 k l hl)
    · intro l hl
      exact Nat.lt_succ_of_lt (lb2 l hl)
    · intro hw'
      simp only at hw'
      rw [mapHas_mapSet_ne h.events event _ "*" (fun e => h2 e.symm)]
      exact wk hw'

theorem reset_inv (h : EventHub) : Inv (reset h) := by
  refine ⟨⟨?_, ?_⟩, ⟨?_, ?_⟩, ?_⟩ <;>
    simp [reset, StableSorted, mapGet, mapHas, WildKeyInv]

theorem off_inv (h : EventHub) (e : Option String) (f : Option Nat)
    (hi : Inv h) : Inv (off h e f) := by
  obtain ⟨⟨li1, li2⟩, ⟨lb1, lb2⟩, wk⟩ := hi
  cases e with
  | none => exact reset_inv h
  | some ev =>
    simp only [off]
    by_cases h1 : ev = "*" ∧ h.wildcardEnabled = true
    · rw [if_pos h1]
      cases f with
      | some f' =>
        refine ⟨⟨li1, ?_⟩, ⟨lb1, ?_⟩, wk⟩
        · exact stableSorted_filter _ _ li2
        · intro l hl
          exact lb2 l (List.mem_of_mem_filter hl)
      | none =>
        exact ⟨⟨li1, by simp [StableSorted]⟩, ⟨lb1, by simp⟩, wk⟩
    · rw [if_neg h1]
      cases f with
      | some f' =>
        cases hg : mapGet h.events ev with
        | none => exact ⟨⟨li1, li2⟩, ⟨lb1, lb2⟩, wk⟩
        | some ls =>
          by_cases hev : ev = "*"
          · subst hev
            have hw : h.wildcardEnabled = false := by
              cases hb : h.wildcardEnabled with
              | false => rfl
              | true => exact absurd ⟨rfl, hb⟩ h1
            have : mapHas h.events "*" = true :=
              mapHas_of_mapGet_some _ _ _ hg
            rw [wk hw] at this
            exact absurd this (by simp)
          · refine ⟨⟨?_, li2⟩, ⟨?_, lb2⟩, ?_⟩
            · intro k
              by_cases hk : k = ev
              · subst hk
                rw [mapGet_mapSet_self]
                have := li1 k
                rw [hg] at this
                exact stableSorted_filter _ _ this
              · rw [mapGet_mapSet_ne h.events ev _ k hk]
                exact li1 k
            · intro k l hl
              by_cases hk : k = ev
              · subst hk
                rw [mapGet_mapSet_self] at hl
                simp only [Option.getD_some] at hl
                have := lb1 k l
                rw [hg] at this
                exact this (List.mem_of_mem_filter hl)
              · rw [mapGet_mapSet_ne h.events ev _ k hk] at hl
                exact lb1 k l hl
            · intro hw'
              rw [mapHas_mapSet_ne h.events ev _ "*" (fun e => hev e.symm)]
              exact wk hw'
      | none =>
        refine ⟨⟨?_, li2⟩, ⟨?_, lb2⟩, ?_⟩
        · intro k
          by_cases hk : k = ev
          · subst hk
            rw [mapGet_mapDelete_self]
            simp [StableSorted]
          · rw [mapGet_mapDelete_ne h.events ev k hk]
            exact li1 k
        · intro k l hl
          by_cases hk : k = ev
          · subst hk
            rw [mapGet_mapDelete_self] at hl
            simp at hl
          · rw [mapGet_mapDelete_ne h.events ev k hk] at hl
            exact lb1 k l hl
        · intro hw'
          by_cases hk : ("*" : String) = ev
          · subst hk
            simp [mapHas, mapGet_mapDelete_self]
          · rw [mapHas, mapGet_mapDelete_ne h.events ev _ hk, ← mapHas]
            exact wk hw'

theorem setMaxListeners_inv (h : EventHub) (n : Nat) (hi : Inv h) :
    Inv (setMaxListeners h n) := hi

theorem construct_inv (o : EventHubOptions) : Inv (construct o) := by
  refine ⟨⟨?_, ?_⟩, ⟨?_, ?_⟩, ?_⟩ <;>
    simp [construct, StableSorted, mapGet, mapHas, WildKeyInv]

/-- Recognizer for a handler invocation at a given depth with a given
argument list. -/
def isCallWithArgs (d : Nat) (a : List Arg) : Tr → Bool
  | Tr.call d' _ _ a' => decide (d' = d ∧ a' = a)
  | Tr.dispatch _ _ _ => false

theorem specLoop_depth (he : EventHub → Nat → Nat → EventHub × List Tr)
    (throws : Nat → Option Nat) (d : Nat) (event : String) (args : List Arg)
    (Hhe : ∀ h err hd, ∀ t ∈ (he h err hd).2, d < trDepth t) :
    ∀ (snap : List Listener) (h : EventHub),
      ∀ t ∈ (specLoop he throws d event args h snap).2, d ≤ trDepth t := by
  intro snap
  induction snap with
  | nil =>
    intro h t ht
    simp [specLoop] at ht
  | cons l rest ih =>
    intro h t ht
    simp only [specLoop] at ht
    cases hth : throws l.handler with
    | none =>
      rw [hth] at ht
      simp only [List.mem_cons] at ht
      rcases ht with ht | ht
      · subst ht; exact le_refl d
      · exact ih _ t ht
    | some err =>
      rw [hth] at ht
      simp only [List.mem_cons, List.mem_append] at ht
      rcases ht with ht | ht | ht
      · subst ht; exact le_refl d
      · exact le_of_lt (Hhe _ err l.handler t ht)
      · exact ih _ t ht

theorem wildLoop_depth (he : EventHub → Nat → Nat → EventHub × List Tr)
    (throws : Nat → Option Nat) (d : Nat) (event : String) (args : List Arg)
    (Hhe : ∀ h err hd, ∀ t ∈ (he h err hd).2, d < trDepth t) :
    ∀ (snap : List Listener) (h : EventHub),
      ∀ t ∈ (wildLoop he throws d event args h snap).2, d ≤ trDepth t := by
  intro snap
  induction snap with
  | nil =>
    intro h t ht
    simp [wildLoop] at ht
  | cons l rest ih =>
    intro h t ht
    simp only [wildLoop] at ht
    cases hth : throws l.handler with
    | none =>
      rw [hth] at ht
      simp only [List.mem_cons] at ht
      rcases ht with ht | ht
      · subst ht; exact le_refl d
      · exact ih _ t ht
    | some err =>
      rw [hth] at ht
      simp only [List.mem_cons, List.mem_append] at ht
      rcases ht with ht | ht | ht
      · subst ht; exact le_refl d
      · exact le_of_lt (Hhe _ err l.handler t ht)
      · exact ih _ t ht

theorem emitFuel_depth (throws : Nat → Option Nat) :
    ∀ (fuel d : Nat) (h : EventHub) (event : String) (args : List Arg),
      ∀ t ∈ (emitFuel throws fuel d h event args).2.1, d ≤ trDepth t := by
  intro fuel
  induction fuel with
  | zero =>
    intro d h event args t ht
    simp [emitFuel] at ht
  | succ fuel ih =>
    intro d h event args t ht
    have Hhe : ∀ (h' : EventHub) (err hd : Nat),
        ∀ t' ∈ (handleErrorF throws fuel d event h' err hd).2,
          d < trDepth t' := by
      intro h' err hd t' ht'
      unfold handleErrorF at ht'
      by_cases hh : mapHas h'.events "error" = true
      · rw [if_pos hh] at ht'
        exact lt_of_lt_of_le (Nat.lt_succ_self d) (ih (d + 1) h' "error" _ t' ht')
      · rw [if_neg hh] at ht'
        simp at ht'
    rw [emitFuel_succ] at ht
    simp only [List.mem_cons, List.mem_append] at ht
    rcases ht with ht | ht | ht
    · subst ht; exact le_refl d
    · unfold wildPhase at ht
      by_cases hw : h.wildcardEnabled = true
      · rw [if_pos hw] at ht
        by_cases hl : h.wildcardListeners.length = 0
        · rw [if_pos hl] at ht
          simp at ht
        · rw [if_neg hl] at ht
          exact wildLoop_depth _ throws d event args Hhe _ h t ht
      · rw [if_neg hw] at ht
        simp at ht
    · unfold specPhase at ht
      cases hg : mapGet (wildPhase (handleErrorF throws fuel d event) throws
          d event args h).1.events event with
      | none =>
        rw [hg] at ht
        simp at ht
      | some ls =>
        rw [hg] at ht
        exact specLoop_depth _ throws d event args Hhe ls _ t ht

theorem filter_isCallWithArgs_nil (d : Nat) (a : List Arg) (tr : List Tr)
    (hd : ∀ t ∈ tr, d < trDepth t) :
    tr.filter (isCallWithArgs d a) = [] := by
  induction tr with
  | nil => rfl
  | cons t rest ih =>
    have hfalse : isCallWithArgs d a t = false := by
      have := hd t (List.mem_cons_self t rest)
      cases t with
      | call d' hh c a' =>
        simp only [trDepth] at this
        simp [isCallWithArgs, Nat.ne_of_gt this]
      | dispatch d' e' a' => rfl
    rw [List.filter_cons, hfalse]
    simp only [Bool.false_eq_true, if_false]
    exact ih (fun t' ht' => hd t' (List.mem_cons_of_mem _ ht'))

/-- The calls the specific fan-out performs at its own depth with its own
argument list are exactly one call per snapshot record, in snapshot
order, with the record's context as receiver. -/
theorem specLoop_filter (he : EventHub → Nat → Nat → EventHub × List Tr)
    (throws : Nat → Option Nat) (d : Nat) (event : String) (args : List Arg)
    (Hhe : ∀ h err hd, ∀ t ∈ (he h err hd).2, d < trDepth t) :
    ∀ (snap : List Listener) (h : EventHub),
      (specLoop he throws d event args h snap).2.filter (isCallWithArgs d args)
        = snap.map (fun l => Tr.call d l.handler l.context args) := by
  intro snap
  induction snap with
  | nil =>
    intro h
    rfl
  | cons l rest ih =>
    intro h
    simp only [specLoop]
    cases hth : throws l.handler with
    | none =>
      rw [List.filter_cons]
      simp only [isCallWithArgs, and_self, decide_True, if_true, List.map_cons]
      rw [ih]
    | some err =>
      rw [List.filter_cons]
      simp only [isCallWithArgs, and_self, decide_True, if_true, List.map_cons]
      rw [List.filter_append,
        filter_isCallWithArgs_nil d args _ (Hhe h err l.handler), List.nil_append]
      rw [ih]

/-- Filtering the specific fan-out's trace for calls with a different
argument list yields nothing. -/
theorem specLoop_filter_ne (he : EventHub → Nat → Nat → EventHub × List Tr)
    (throws : Nat → Option Nat) (d : Nat) (event : String) (args : List Arg)
    (a' : List Arg)
    (Hhe : ∀ h err hd, ∀ t ∈ (he h err hd).2, d < trDepth t)
    (hne : args ≠ a') :
    ∀ (snap : List Listener) (h : EventHub),
      (specLoop he throws d event args h snap).2.filter (isCallWithArgs d a')
        = [] := by
  intro snap
  induction snap with
  | nil =>
    intro h
    rfl
  | cons l rest ih =>
    intro h
    simp only [specLoop]
    cases hth : throws l.handler with
    | none =>
      rw [List.filter_cons]
      simp only [isCallWithArgs, hne, and_false, decide_False,
        Bool.false_eq_true, if_false]
      rw [ih]
    | some err =>
      rw [List.filter_cons]
      simp only [isCallWithArgs, hne, and_false, decide_False,
        Bool.false_eq_true, if_false]
      rw [List.filter_append,
        filter_isCallWithArgs_nil d a' _ (Hhe h err l.handler), List.nil_append]
      rw [ih]

/-- The calls the wildcard fan-out performs at its own depth are exactly
one call per snapshot record, in snapshot order, with the event name
prepended to the argument list. -/
theorem wildLoop_filter (he : EventHub → Nat → Nat → EventHub × List Tr)
    (throws : Nat → Option Nat) (d : Nat) (event : String) (args : List Arg)
    (Hhe : ∀ h err hd, ∀ t ∈ (he h err hd).2, d < trDepth t) :
    ∀ (snap : List Listener) (h : EventHub),
      (wildLoop he throws d event args h snap).2.filter
          (isCallWithArgs d (Arg.str event :: args))
        = snap.map
            (fun l => Tr.call d l.handler l.context (Arg.str event :: args)) := by
  intro snap
  induction snap with
  | nil =>
    intro h
    rfl
  | cons l rest ih =>
    intro h
    simp only [wildLoop]
    cases hth : throws l.handler with
    | none =>
      rw [List.filter_cons]
      simp only [isCallWithArgs, and_self, decide_True, if_true, List.map_cons]
      rw [ih]
    | some err =>
      rw [List.filter_cons]
      simp only [isCallWithArgs, and_self, decide_True, if_true, List.map_cons]
      rw [List.filter_append,
        filter_isCallWithArgs_nil d _ _ (Hhe h err l.handler), List.nil_append]
      rw [ih]

/-- Filtering the wildcard fan-out's trace for calls with a different
argument list yields nothing. -/
theorem wildLoop_filter_ne (he : EventHub → Nat → Nat → EventHub × List Tr)
    (throws : Nat → Option Nat) (d : Nat) (event : String) (args : List Arg)
    (a' : List Arg)
    (Hhe : ∀ h err hd, ∀ t ∈ (he h err hd).2, d < trDepth t)
    (hne : Arg.str event :: args ≠ a') :
    ∀ (snap : List Listener) (h : EventHub),
      (wildLoop he throws d event args h snap).2.filter (isCallWithArgs d a')
        = [] := by
  intro snap
  induction snap with
  | nil =>
    intro h
    rfl
  | cons l rest ih =>
    intro h
    simp only [wildLoop]
    cases hth : throws l.handler with
    | none =>
      rw [List.filter_cons]
      simp only [isCallWithArgs, hne, and_false, decide_False,
        Bool.false_eq_true, if_false]
      rw [ih]
    | some err =>
      rw [List.filter_cons]
      simp only [isCallWithArgs, hne, and_false, decide_False,
        Bool.false_eq_true, if_false]
      rw [List.filter_append,
        filter_isCallWithArgs_nil d a' _ (Hhe h err l.handler), List.nil_append]
      rw [ih]

theorem specLoop_events_frame (he : EventHub → Nat → Nat → EventHub × List Tr)
    (throws : Nat → Option Nat) (d : Nat) (event : String) (args : List Arg)
    (Hhe : ∀ h' err hd, ∀ k, k ≠ "error" →
      mapGet (he h' err hd).1.events k = mapGet h'.events k) :
    ∀ (snap : List Listener) (h : EventHub) (k : String),
      k ≠ "error" → k ≠ event →
      mapGet (specLoop he throws d event args h snap).1.events k
        = mapGet h.events k := by
  intro snap
  induction snap with
  | nil =>
    intro h k _ _
    rfl
  | cons l rest ih =>
    intro h k hk1 hk2
    simp only [specLoop]
    cases hth : throws l.handler with
    | none =>
      by_cases ho : l.once = true
      · rw [if_pos ho]
        rw [ih _ k hk1 hk2]
        exact pruneSpec_mapGet_ne h event l.lid k hk2
      · rw [if_neg ho]
        exact ih h k hk1 hk2
    | some err =>
      rw [ih _ k hk1 hk2]
      exact Hhe h err l.handler k hk1

theorem wildLoop_events_frame (he : EventHub → Nat → Nat → EventHub × List Tr)
    (throws : Nat → Option Nat) (d : Nat) (event : String) (args : List Arg)
    (Hhe : ∀ h' err hd, ∀ k, k ≠ "error" →
      mapGet (he h' err hd).1.events k = mapGet h'.events k) :
    ∀ (snap : List Listener) (h : EventHub) (k : String),
      k ≠ "error" →
      mapGet (wildLoop he throws d event args h snap).1.events k
        = mapGet h.events k := by
  intro snap
  induction snap with
  | nil =>
    intro h k _
    rfl
  | cons l rest ih =>
    intro h k hk1
    simp only [wildLoop]
    cases hth : throws l.handler with
    | none =>
      by_cases ho : l.once = true
      · rw [if_pos ho]
        exact ih _ k hk1
      · rw [if_neg ho]
        exact ih h k hk1
    | some err =>
      rw [ih _ k hk1]
      exact Hhe h err l.handler k hk1

/-- A dispatch only rewrites the map entries for its own event and for
`"error"`; every other entry is left exactly as it was. -/
theorem emitFuel_events_frame (throws : Nat → Option Nat) :
    ∀ (fuel d : Nat) (h : EventHub) (event : String) (args : List Arg)
      (k : String), k ≠ "error" → k ≠ event →
      mapGet (emitFuel throws fuel d h event args).1.events k
        = mapGet h.events k := by
  intro fuel
  induction fuel with
  | zero =>
    intro d h event args k _ _
    rfl
  | succ fuel ih =>
    intro d h event args k hk1 hk2
    have Hhe : ∀ (h' : EventHub) (err hd : Nat), ∀ k', k' ≠ "error" →
        mapGet (handleErrorF throws fuel d event h' err hd).1.events k'
          = mapGet h'.events k' := by
      intro h' err hd k' hk'
      unfold handleErrorF
      by_cases hh : mapHas h'.events "error" = true
      · rw [if_pos hh]
        exact ih (d + 1) h' "error" _ k' hk' hk'
      · rw [if_neg hh]
    rw [emitFuel_succ]
    show mapGet (specPhase _ throws d event args
      (wildPhase _ throws d event args h).1).1.events k = mapGet h.events k
    have hw : mapGet (wildPhase (handleErrorF throws fuel d event) throws
        d event args h).1.events k = mapGet h.events k := by
      unfold wildPhase
      by_cases hwe : h.wildcardEnabled = true
      · rw [if_pos hwe]
        by_cases hl : h.wildcardListeners.length = 0
        · rw [if_pos hl]
        · rw [if_neg hl]
          exact wildLoop_events_frame _ throws d event args Hhe _ h k hk1
      · rw [if_neg hwe]
    rw [← hw]
    unfold specPhase
    cases hg : mapGet (wildPhase (handleErrorF throws fuel d event) throws
        d event args h).1.events event with
    | none => rfl
    | some ls =>
      exact specLoop_events_frame _ throws d event args Hhe ls _ k hk1 hk2

/-- The `"error"`-event machinery never touches the wildcard key, so the
wildcard list snapshot seen by the specific fan-out matters only through
`mapGet`; in particular for an event other than `"error"` the specific
snapshot taken after the wildcard phase is the registered sequence. -/
theorem wildPhase_spec_snapshot (he : EventHub → Nat → Nat → EventHub × List Tr)
    (throws : Nat → Option Nat) (d : Nat) (event : String) (args : List Arg)
    (Hhe : ∀ h' err hd, ∀ k, k ≠ "error" →
      mapGet (he h' err hd).1.events k = mapGet h'.events k)
    (h : EventHub) (hev : event ≠ "error") :
    mapGet (wildPhase he throws d event args h).1.events event
      = mapGet h.events event := by
  unfold wildPhase
  by_cases hwe : h.wildcardEnabled = true
  · rw [if_pos hwe]
    by_cases hl : h.wildcardListeners.length = 0
    · rw [if_pos hl]
    · rw [if_neg hl]
      exact wildLoop_events_frame he throws d event args Hhe _ h event hev
  · rw [if_neg hwe]

theorem handleErrorF_depth (throws : Nat → Option Nat) (fuel d : Nat)
    (event : String) : ∀ (h' : EventHub) (err hd : Nat),
      ∀ t ∈ (handleErrorF throws fuel d event h' err hd).2, d < trDepth t := by
  intro h' err hd t ht
  unfold handleErrorF at ht
  by_cases hh : mapHas h'.events "error" = true
  · rw [if_pos hh] at ht
    exact lt_of_lt_of_le (Nat.lt_succ_self d)
      (emitFuel_depth throws fuel (d + 1) h' "error" _ t ht)
  · rw [if_neg hh] at ht
    simp at ht

theorem handleErrorF_frame (throws : Nat → Option Nat) (fuel d : Nat)
    (event : String) : ∀ (h' : EventHub) (err hd : Nat) (k : String),
      k ≠ "error" →
      mapGet (handleErrorF throws fuel d event h' err hd).1.events k
        = mapGet h'.events k := by
  intro h' err hd k hk
  unfold handleErrorF
  by_cases hh : mapHas h'.events "error" = true
  · rw [if_pos hh]
    exact emitFuel_events_frame throws fuel (d + 1) h' "error" _ k hk hk
  · rw [if_neg hh]

theorem handleErrorF_evolves (throws : Nat → Option Nat) (fuel d : Nat)
    (event : String) : ∀ (h' : EventHub) (err hd : Nat),
      Evolves h' (handleErrorF throws fuel d event h' err hd).1 := by
  intro h' err hd
  unfold handleErrorF
  by_cases hh : mapHas h'.events "error" = true
  · rw [if_pos hh]
    exact emitFuel_evolves throws fuel (d + 1) h' "error" _
  · rw [if_neg hh]
    exact evolves_refl h'

/-- A dispatch resolves to `true` whenever it starts with fuel. -/
theorem emitFuel_isTrue (throws : Nat → Option Nat) (fuel d : Nat)
    (h : EventHub) (event : String) (args : List Arg) :
    (emitFuel throws (fuel + 1) d h event args).2.2 = true := rfl

/-- The calls of a dispatch at its own depth with the unмodified argument
list are exactly one call per record of the registered sequence for the
event, in sequence order. -/
theorem emitFuel_filter_spec (throws : Nat → Option Nat) (fuel d : Nat)
    (h : EventHub) (event : String) (args : List Arg) (ls : List Listener)
    (hev : event ≠ "error") (hg : mapGet h.events event = some ls) :
    ((emitFuel throws (fuel + 1) d h event args).2.1).filter
        (isCallWithArgs d args)
      = ls.map (fun l => Tr.call d l.handler l.context args) := by
  have Hdep := handleErrorF_depth throws fuel d event
  have Hfr := handleErrorF_frame throws fuel d event
  rw [emitFuel_succ]
  show (Tr.dispatch d event args ::
      ((wildPhase (handleErrorF throws fuel d event) throws d event args h).2 ++
        (specPhase (handleErrorF throws fuel d event) throws d event args
          (wildPhase (handleErrorF throws fuel d event) throws
            d event args h).1).2)).filter (isCallWithArgs d args) = _
  rw [List.filter_cons]
  simp only [isCallWithArgs, Bool.false_eq_true, if_false]
  rw [List.filter_append]
  have hwild : (wildPhase (handleErrorF throws fuel d event) throws
      d event args h).2.filter (isCallWithArgs d args) = [] := by
    unfold wildPhase
    by_cases hwe : h.wildcardEnabled = true
    · rw [if_pos hwe]
      by_cases hl : h.wildcardListeners.length = 0
      · rw [if_pos hl]
        rfl
      · rw [if_neg hl]
        exact wildLoop_filter_ne _ throws d event args args Hdep
          (List.cons_ne_self _ _) _ h
    · rw [if_neg hwe]
      rfl
  rw [hwild, List.nil_append]
  unfold specPhase
  rw [wildPhase_spec_snapshot _ throws d event args Hfr h hev, hg]
  exact specLoop_filter _ throws d event args Hdep ls _

/-- The calls of a dispatch at its own depth with the event name prepended
to the argument list are exactly one call per wildcard record, in wildcard
sequence order (when wildcard support is enabled). -/
theorem emitFuel_filter_wild (throws : Nat → Option Nat) (fuel d : Nat)
    (h : EventHub) (event : String) (args : List Arg)
    (hwe : h.wildcardEnabled = true) :
    ((emitFuel throws (fuel + 1) d h event args).2.1).filter
        (isCallWithArgs d (Arg.str event :: args))
      = h.wildcardListeners.map
          (fun l => Tr.call d l.handler l.context (Arg.str event :: args)) := by
  have Hdep := handleErrorF_depth throws fuel d event
  rw [emitFuel_succ]
  show (Tr.dispatch d event args ::
      ((wildPhase (handleErrorF throws fuel d event) throws d event args h).2 ++
        (specPhase (handleErrorF throws fuel d event) throws d event args
          (wildPhase (handleErrorF throws fuel d event) throws
            d event args h).1).2)).filter
      (isCallWithArgs d (Arg.str event :: args)) = _
  rw [List.filter_cons]
  simp only [isCallWithArgs, Bool.false_eq_true, if_false]
  rw [List.filter_append]
  have hspec : (specPhase (handleErrorF throws fuel d event) throws
      d event args (wildPhase (handleErrorF throws fuel d event) throws
        d event args h).1).2.filter
      (isCallWithArgs d (Arg.str event :: args)) = [] := by
    unfold specPhase
    cases hg : mapGet (wildPhase (handleErrorF throws fuel d event) throws
        d event args h).1.events event with
    | none => rfl
    | some ls =>
      exact specLoop_filter_ne _ throws d event args _ Hdep
        (Ne.symm (List.cons_ne_self _ _)) ls _
  rw [hspec, List.append_nil]
  unfold wildPhase
  rw [if_pos hwe]
  by_cases hl : h.wildcardListeners.length = 0
  · rw [if_pos hl]
    rw [List.length_eq_zero.mp hl]
    rfl
  · rw [if_neg hl]
    exact wildLoop_filter _ throws d event args Hdep _ h

theorem specLoop_error_dispatch (he : EventHub → Nat → Nat → EventHub × List Tr)
    (throws : Nat → Option Nat) (d : Nat) (event : String) (args : List Arg)
    (HheEvol : ∀ h' err hd, Evolves h' (he h' err hd).1)
    (HheDisp : ∀ (h' : EventHub) (err hd : Nat),
      mapHas h'.events "error" = true →
      Tr.dispatch (d + 1) "error"
          [Arg.errVal err, Arg.str event, Arg.handlerRef hd] ∈ (he h' err hd).2) :
    ∀ (snap : List Listener) (h : EventHub) (l : Listener) (err : Nat),
      mapHas h.events "error" = true → l ∈ snap →
      throws l.handler = some err →
      Tr.dispatch (d + 1) "error"
          [Arg.errVal err, Arg.str event, Arg.handlerRef l.handler]
        ∈ (specLoop he throws d event args h snap).2 := by
  intro snap
  induction snap with
  | nil =>
    intro h l err _ hl _
    simp at hl
  | cons x rest ih =>
    intro h l err hhas hl hth
    rcases List.mem_cons.mp hl with hx | hx
    · subst hx
      simp only [specLoop, hth]
      exact List.mem_cons_of_mem _
        (List.mem_append_left _ (HheDisp h err l.handler hhas))
    · cases hthx : throws x.handler with
      | none =>
        simp only [specLoop, hthx]
        by_cases ho : x.once = true
        · rw [if_pos ho]
          exact List.mem_cons_of_mem _
            (ih (pruneSpec h event x.lid) l err
              (pruneSpec_mapHas_true h event x.lid "error" hhas) hx hth)
        · rw [if_neg ho]
          exact List.mem_cons_of_mem _ (ih h l err hhas hx hth)
      | some err2 =>
        simp only [specLoop, hthx]
        refine List.mem_cons_of_mem _ (List.mem_append_right _
          (ih (he h err2 x.handler).1 l err ?_ hx hth))
        rw [(HheEvol h err2 x.handler).1 "error"]
        exact hhas

theorem wildLoop_error_dispatch (he : EventHub → Nat → Nat → EventHub × List Tr)
    (throws : Nat → Option Nat) (d : Nat) (event : String) (args : List Arg)
    (HheEvol : ∀ h' err hd, Evolves h' (he h' err hd).1)
    (HheDisp : ∀ (h' : EventHub) (err hd : Nat),
      mapHas h'.events "error" = true →
      Tr.dispatch (d + 1) "error"
          [Arg.errVal err, Arg.str event, Arg.handlerRef hd] ∈ (he h' err hd).2) :
    ∀ (snap : List Listener) (h : EventHub) (l : Listener) (err : Nat),
      mapHas h.events "error" = true → l ∈ snap →
      throws l.handler = some err →
      Tr.dispatch (d + 1) "error"
          [Arg.errVal err, Arg.str event, Arg.handlerRef l.handler]
        ∈ (wildLoop he throws d event args h snap).2 := by
  intro snap
  induction snap with
  | nil =>
    intro h l err _ hl _
    simp at hl
  | cons x rest ih =>
    intro h l err hhas hl hth
    rcases List.mem_cons.mp hl with hx | hx
    · subst hx
      simp only [wildLoop, hth]
      exact List.mem_cons_of_mem _
        (List.mem_append_left _ (HheDisp h err l.handler hhas))
    · cases hthx : throws x.handler with
      | none =>
        simp only [wildLoop, hthx]
        by_cases ho : x.once = true
        · rw [if_pos ho]
          exact List.mem_cons_of_mem _ (ih (pruneWild h x.lid) l err hhas hx hth)
        · rw [if_neg ho]
          exact List.mem_cons_of_mem _ (ih h l err hhas hx hth)
      | some err2 =>
        simp only [wildLoop, hthx]
        refine List.mem_cons_of_mem _ (List.mem_append_right _
          (ih (he h err2 x.handler).1 l err ?_ hx hth))
        rw [(HheEvol h err2 x.handler).1 "error"]
        exact hhas

/-- When the `"error"` key is present, `handleErrorF` with fuel records
the nested error dispatch, carrying exactly the error value, the original
event name, and the failing handler reference. -/
theorem handleErrorF_dispatch (throws : Nat → Option Nat) (fuel d : Nat)
    (event : String) : ∀ (h' : EventHub) (err hd : Nat),
      mapHas h'.events "error" = true →
      Tr.dispatch (d + 1) "error"
          [Arg.errVal err, Arg.str event, Arg.handlerRef hd]
        ∈ (handleErrorF throws (fuel + 1) d event h' err hd).2 := by
  intro h' err hd hhas
  unfold handleErrorF
  rw [if_pos hhas]
  rw [emitFuel_succ]
  exact List.mem_cons_self _ _

/-- Zero trace entries mention an `"error"` dispatch. -/
def NoErrorDispatch (tr : List Tr) : Prop :=
  ∀ (d' : Nat) (a' : List Arg), Tr.dispatch d' "error" a' ∉ tr

theorem noErrorDispatch_nil : NoErrorDispatch [] := by
  intro d' a' hmem
  simp at hmem

theorem noErrorDispatch_cons_call (d : Nat) (f : Nat) (c : Option Nat)
    (a : List Arg) (tr : List Tr) (h : NoErrorDispatch tr) :
    NoErrorDispatch (Tr.call d f c a :: tr) := by
  intro d' a' hmem
  rcases List.mem_cons.mp hmem with hx | hx
  · exact absurd hx (by simp)
  · exact h d' a' hx

theorem noErrorDispatch_append {t1 t2 : List Tr}
    (h1 : NoErrorDispatch t1) (h2 : NoErrorDispatch t2) :
    NoErrorDispatch (t1 ++ t2) := by
  intro d' a' hmem
  rcases List.mem_append.mp hmem with hx | hx
  · exact h1 d' a' hx
  · exact h2 d' a' hx

theorem specLoop_no_error (he : EventHub → Nat → Nat → EventHub × List Tr)
    (throws : Nat → Option Nat) (d : Nat) (event : String) (args : List Arg)
    (Hhe0 : ∀ (h' : EventHub) (err hd : Nat),
      mapHas h'.events "error" = false → he h' err hd = (h', []))
    (hev : event ≠ "error") :
    ∀ (snap : List Listener) (h : EventHub),
      mapHas h.events "error" = false →
      NoErrorDispatch (specLoop he throws d event args h snap).2 ∧
      mapHas (specLoop he throws d event args h snap).1.events "error"
        = false := by
  intro snap
  induction snap with
  | nil =>
    intro h hh
    exact ⟨noErrorDispatch_nil, hh⟩
  | cons x rest ih =>
    intro h hh
    cases hthx : throws x.handler with
    | none =>
      simp only [specLoop, hthx]
      by_cases ho : x.once = true
      · rw [if_pos ho]
        have hh' : mapHas (pruneSpec h event x.lid).events "error" = false := by
          show mapHas (mapSet h.events event _) "error" = false
          rw [mapHas_mapSet_ne h.events event _ "error" (Ne.symm hev)]
          exact hh
        obtain ⟨ha, hb⟩ := ih (pruneSpec h event x.lid) hh'
        exact ⟨noErrorDispatch_cons_call _ _ _ _ _ ha, hb⟩
      · rw [if_neg ho]
        obtain ⟨ha, hb⟩ := ih h hh
        exact ⟨noErrorDispatch_cons_call _ _ _ _ _ ha, hb⟩
    | some err =>
      simp only [specLoop, hthx]
      rw [Hhe0 h err x.handler hh]
      obtain ⟨ha, hb⟩ := ih h hh
      refine ⟨?_, hb⟩
      simp only [List.nil_append]
      exact noErrorDispatch_cons_call _ _ _ _ _ ha

theorem wildLoop_no_error (he : EventHub → Nat → Nat → EventHub × List Tr)
    (throws : Nat → Option Nat) (d : Nat) (event : String) (args : List Arg)
    (Hhe0 : ∀ (h' : EventHub) (err hd : Nat),
      mapHas h'.events "error" = false → he h' err hd = (h', [])) :
    ∀ (snap : List Listener) (h : EventHub),
      mapHas h.events "error" = false →
      NoErrorDispatch (wildLoop he throws d event args h snap).2 ∧
      mapHas (wildLoop he throws d event args h snap).1.events "error"
        = false := by
  intro snap
  induction snap with
  | nil =>
    intro h hh
    exact ⟨noErrorDispatch_nil, hh⟩
  | cons x rest ih =>
    intro h hh
    cases hthx : throws x.handler with
    | none =>
      simp only [wildLoop, hthx]
      by_cases ho : x.once = true
      · rw [if_pos ho]
        obtain ⟨ha, hb⟩ := ih (pruneWild h x.lid) hh
        exact ⟨noErrorDispatch_cons_call _ _ _ _ _ ha, hb⟩
      · rw [if_neg ho]
        obtain ⟨ha, hb⟩ := ih h hh
        exact ⟨noErrorDispatch_cons_call _ _ _ _ _ ha, hb⟩
    | some err =>
      simp only [wildLoop, hthx]
      rw [Hhe0 h err x.handler hh]
      obtain ⟨ha, hb⟩ := ih h hh
      refine ⟨?_, hb⟩
      simp only [List.nil_append]
      exact noErrorDispatch_cons_call _ _ _ _ _ ha

/-- A dispatch of an event other than `"error"`, on a state whose map has
no `"error"` key, performs no error-event dispatch at all. -/
theorem emitFuel_no_error (throws : Nat → Option Nat) (fuel d : Nat)
    (h : EventHub) (event : String) (args : List Arg)
    (hev : event ≠ "error") (hh : mapHas h.events "error" = false) :
    NoErrorDispatch (emitFuel throws fuel d h event args).2.1 := by
  cases fuel with
  | zero => exact noErrorDispatch_nil
  | succ fuel =>
    have Hhe0 : ∀ (h' : EventHub) (err hd : Nat),
        mapHas h'.events "error" = false →
        handleErrorF throws fuel d event h' err hd = (h', []) := by
      intro h' err hd hh'
      unfold handleErrorF
      rw [if_neg (by rw [hh']; simp)]
    rw [emitFuel_succ]
    show NoErrorDispatch (Tr.dispatch d event args ::
      ((wildPhase (handleErrorF throws fuel d event) throws d event args h).2 ++
        (specPhase (handleErrorF throws fuel d event) throws d event args
          (wildPhase (handleErrorF throws fuel d event) throws
            d event args h).1).2))
    have hwild : NoErrorDispatch (wildPhase (handleErrorF throws fuel d event)
          throws d event args h).2 ∧
        mapHas (wildPhase (handleErrorF throws fuel d event) throws
          d event args h).1.events "error" = false := by
      unfold wildPhase
      by_cases hwe : h.wildcardEnabled = true
      · rw [if_pos hwe]
        by_cases hl : h.wildcardListeners.length = 0
        · rw [if_pos hl]
          exact ⟨noErrorDispatch_nil, hh⟩
        · rw [if_neg hl]
          exact wildLoop_no_error _ throws d event args Hhe0 _ h hh
      · rw [if_neg hwe]
        exact ⟨noErrorDispatch_nil, hh⟩
    have hspec : NoErrorDispatch (specPhase (handleErrorF throws fuel d event)
        throws d event args (wildPhase (handleErrorF throws fuel d event)
          throws d event args h).1).2 := by
      unfold specPhase
      cases hg : mapGet (wildPhase (handleErrorF throws fuel d event) throws
          d event args h).1.events event with
      | none => exact noErrorDispatch_nil
      | some ls =>
        exact (specLoop_no_error _ throws d event args Hhe0 hev ls _
          hwild.2).1
    intro d' a' hmem
    rcases List.mem_cons.mp hmem with hx | hx
    · exact hev (by injection hx with _ he2 _; exact he2.symm)
    · exact noErrorDispatch_append hwild.1 hspec d' a' hx

/-- A specific-fan-out listener that throws, while the `"error"` key is
present, makes the dispatch record a nested error dispatch with exactly
(error value, original event, failing handler). -/
theorem emitFuel_error_dispatch_spec (throws : Nat → Option Nat) (fuel : Nat)
    (h : EventHub) (event : String) (args : List Arg) (ls : List Listener)
    (l : Listener) (err : Nat) (hev : event ≠ "error")
    (hg : mapGet h.events event = some ls) (hl : l ∈ ls)
    (hth : throws l.handler = some err)
    (hhas : mapHas h.events "error" = true) :
    Tr.dispatch 1 "error"
        [Arg.errVal err, Arg.str event, Arg.handlerRef l.handler]
      ∈ (emitFuel throws (fuel + 2) 0 h event args).2.1 := by
  have HheEvol := handleErrorF_evolves throws (fuel + 1) 0 event
  have HheDisp := handleErrorF_dispatch throws fuel 0 event
  have Hfr := handleErrorF_frame throws (fuel + 1) 0 event
  rw [emitFuel_succ]
  show _ ∈ (Tr.dispatch 0 event args ::
    ((wildPhase (handleErrorF throws (fuel + 1) 0 event) throws
        0 event args h).2 ++
      (specPhase (handleErrorF throws (fuel + 1) 0 event) throws 0 event args
        (wildPhase (handleErrorF throws (fuel + 1) 0 event) throws
          0 event args h).1).2))
  refine List.mem_cons_of_mem _ (List.mem_append_right _ ?_)
  have hsnap : mapGet (wildPhase (handleErrorF throws (fuel + 1) 0 event)
      throws 0 event args h).1.events event = some ls := by
    rw [wildPhase_spec_snapshot _ throws 0 event args Hfr h hev]
    exact hg
  have hhas1 : mapHas (wildPhase (handleErrorF throws (fuel + 1) 0 event)
      throws 0 event args h).1.events "error" = true := by
    rw [(wildPhase_evolves _ throws 0 event args HheEvol h).1 "error"]
    exact hhas
  unfold specPhase
  rw [hsnap]
  exact specLoop_error_dispatch _ throws 0 event args HheEvol HheDisp
    ls _ l err hhas1 hl hth

/-- A wildcard-fan-out listener that throws, while the `"error"` key is
present, likewise makes the dispatch record a nested error dispatch. -/
theorem emitFuel_error_dispatch_wild (throws : Nat → Option Nat) (fuel : Nat)
    (h : EventHub) (event : String) (args : List Arg) (l : Listener)
    (err : Nat) (hwe : h.wildcardEnabled = true)
    (hl : l ∈ h.wildcardListeners) (hth : throws l.handler = some err)
    (hhas : mapHas h.events "error" = true) :
    Tr.dispatch 1 "error"
        [Arg.errVal err, Arg.str event, Arg.handlerRef l.handler]
      ∈ (emitFuel throws (fuel + 2) 0 h event args).2.1 := by
  have HheEvol := handleErrorF_evolves throws (fuel + 1) 0 event
  have HheDisp := handleErrorF_dispatch throws fuel 0 event
  rw [emitFuel_succ]
  show _ ∈ (Tr.dispatch 0 event args ::
    ((wildPhase (handleErrorF throws (fuel + 1) 0 event) throws
        0 event args h).2 ++
      (specPhase (handleErrorF throws (fuel + 1) 0 event) throws 0 event args
        (wildPhase (handleErrorF throws (fuel + 1) 0 event) throws
          0 event args h).1).2))
  refine List.mem_cons_of_mem _ (List.mem_append_left _ ?_)
  unfold wildPhase
  rw [if_pos hwe]
  have hl0 : ¬ h.wildcardListeners.length = 0 := by
    intro h0
    rw [List.length_eq_zero.mp h0] at hl
    simp at hl
  rw [if_neg hl0]
  exact wildLoop_error_dispatch _ throws 0 event args HheEvol HheDisp
    _ h l err hhas hl hth

/-- No record with the given identity remains in the map entry for the
event. -/
def AbsentSpec (event : String) (lid : Nat) (h : EventHub) : Prop :=
  ∀ x ∈ (mapGet h.events event).getD [], x.lid ≠ lid

/-- No record with the given identity remains in the wildcard list. -/
def AbsentWild (lid : Nat) (h : EventHub) : Prop :=
  ∀ x ∈ h.wildcardListeners, x.lid ≠ lid

theorem absentSpec_of_evolves {h h' : EventHub} {event : String} {lid : Nat}
    (e : Evolves h h') (ha : AbsentSpec event lid h) :
    AbsentSpec event lid h' :=
  fun x hx => ha x ((e.2.1 event).subset hx)

theorem absentWild_of_evolves {h h' : EventHub} {lid : Nat}
    (e : Evolves h h') (ha : AbsentWild lid h) : AbsentWild lid h' :=
  fun x hx => ha x (e.2.2.1.subset hx)

theorem absentSpec_prune (h : EventHub) (event : String) (lid : Nat) :
    AbsentSpec event lid (pruneSpec h event lid) := by
  intro x hx
  rw [pruneSpec_mapGet_self] at hx
  simp only [Option.getD_some, List.mem_filter, bne_iff_ne] at hx
  exact hx.2

theorem absentWild_prune (h : EventHub) (lid : Nat) :
    AbsentWild lid (pruneWild h lid) := by
  intro x hx
  simp only [pruneWild, List.mem_filter, bne_iff_ne] at hx
  exact hx.2

/-- A one-shot record of the specific snapshot whose handler returns
normally is pruned by the loop and never reappears. -/
theorem specLoop_once_removed (he : EventHub → Nat → Nat → EventHub × List Tr)
    (throws : Nat → Option Nat) (d : Nat) (event : String) (args : List Arg)
    (HheEvol : ∀ h' err hd, Evolves h' (he h' err hd).1) :
    ∀ (snap : List Listener) (h : EventHub) (l : Listener),
      mapHas h.events event = true → l ∈ snap → l.once = true →
      throws l.handler = none →
      AbsentSpec event l.lid (specLoop he throws d event args h snap).1 := by
  intro snap
  induction snap with
  | nil =>
    intro h l _ hl _ _
    simp at hl
  | cons x rest ih =>
    intro h l hk hl ho hth
    rcases List.mem_cons.mp hl with hx | hx
    · subst hx
      simp only [specLoop, hth]
      rw [if_pos ho]
      exact absentSpec_of_evolves
        (specLoop_evolves he throws d event args HheEvol rest
          (pruneSpec h event l.lid) (pruneSpec_mapHas_self h event l.lid))
        (absentSpec_prune h event l.lid)
    · cases hthx : throws x.handler with
      | none =>
        simp only [specLoop, hthx]
        by_cases hxo : x.once = true
        · rw [if_pos hxo]
          exact ih (pruneSpec h event x.lid) l
            (pruneSpec_mapHas_self h event x.lid) hx ho hth
        · rw [if_neg hxo]
          exact ih h l hk hx ho hth
      | some err =>
        simp only [specLoop, hthx]
        refine ih (he h err x.handler).1 l ?_ hx ho hth
        rw [(HheEvol h err x.handler).1 event]
        exact hk

/-- A one-shot record of the wildcard snapshot whose handler returns
normally is pruned by the loop and never reappears. -/
theorem wildLoop_once_removed (he : EventHub → Nat → Nat → EventHub × List Tr)
    (throws : Nat → Option Nat) (d : Nat) (event : String) (args : List Arg)
    (HheEvol : ∀ h' err hd, Evolves h' (he h' err hd).1) :
    ∀ (snap : List Listener) (h : EventHub) (l : Listener),
      l ∈ snap → l.once = true → throws l.handler = none →
      AbsentWild l.lid (wildLoop he throws d event args h snap).1 := by
  intro snap
  induction snap with
  | nil =>
    intro h l hl _ _
    simp at hl
  | cons x rest ih =>
    intro h l hl ho hth
    rcases List.mem_cons.mp hl with hx | hx
    · subst hx
      simp only [wildLoop, hth]
      rw [if_pos ho]
      exact absentWild_of_evolves
        (wildLoop_evolves he throws d event args HheEvol rest
          (pruneWild h l.lid))
        (absentWild_prune h l.lid)
    · cases hthx : throws x.handler with
      | none =>
        simp only [wildLoop, hthx]
        by_cases hxo : x.once = true
        · rw [if_pos hxo]
          exact ih (pruneWild h x.lid) l hx ho hth
        · rw [if_neg hxo]
          exact ih h l hx ho hth
      | some err =>
        simp only [wildLoop, hthx]
        exact ih (he h err x.handler).1 l hx ho hth

/-- A successful one-shot specific listener's record is absent from the
event's live sequence once the dispatch completes. -/
theorem emitFuel_once_removed_spec (throws : Nat → Option Nat) (fuel : Nat)
    (h : EventHub) (event : String) (args : List Arg) (ls : List Listener)
    (l : Listener) (hev : event ≠ "error")
    (hg : mapGet h.events event = some ls) (hl : l ∈ ls)
    (ho : l.once = true) (hth : throws l.handler = none) :
    AbsentSpec event l.lid (emitFuel throws (fuel + 1) 0 h event args).1 := by
  have HheEvol := handleErrorF_evolves throws fuel 0 event
  have Hfr := handleErrorF_frame throws fuel 0 event
  rw [emitFuel_succ]
  show AbsentSpec event l.lid
    (specPhase (handleErrorF throws fuel 0 event) throws 0 event args
      (wildPhase (handleErrorF throws fuel 0 event) throws
        0 event args h).1).1
  have hsnap : mapGet (wildPhase (handleErrorF throws fuel 0 event)
      throws 0 event args h).1.events event = some ls := by
    rw [wildPhase_spec_snapshot _ throws 0 event args Hfr h hev]
    exact hg
  unfold specPhase
  rw [hsnap]
  exact specLoop_once_removed _ throws 0 event args HheEvol ls _ l
    (mapHas_of_mapGet_some _ _ _ hsnap) hl ho hth

/-- A successful one-shot wildcard listener's record is absent from the
live wildcard list once the dispatch completes. -/
theorem emitFuel_once_removed_wild (throws : Nat → Option Nat) (fuel : Nat)
    (h : EventHub) (event : String) (args : List Arg) (l : Listener)
    (hwe : h.wildcardEnabled = true) (hl : l ∈ h.wildcardListeners)
    (ho : l.once = true) (hth : throws l.handler = none) :
    AbsentWild l.lid (emitFuel throws (fuel + 1) 0 h event args).1 := by
  have HheEvol := handleErrorF_evolves throws fuel 0 event
  rw [emitFuel_succ]
  show AbsentWild l.lid
    (specPhase (handleErrorF throws fuel 0 event) throws 0 event args
      (wildPhase (handleErrorF throws fuel 0 event) throws
        0 event args h).1).1
  have hwild : AbsentWild l.lid (wildPhase (handleErrorF throws fuel 0 event)
      throws 0 event args h).1 := by
    unfold wildPhase
    rw [if_pos hwe]
    have hl0 : ¬ h.wildcardListeners.length = 0 := by
      intro h0
      rw [List.length_eq_zero.mp h0] at hl
      simp at hl
    rw [if_neg hl0]
    exact wildLoop_once_removed _ throws 0 event args HheEvol _ h l hl ho hth
  exact absentWild_of_evolves
    (specPhase_evolves _ throws 0 event args HheEvol _) hwild

/-- Every reachable state satisfies the combined invariant. -/
theorem reachable_inv (h : EventHub) (hr : Reachable h) : Inv h := by
  induction hr with
  | init o => exact construct_inv o
  | step_on h e f c p _ ih => exact addListener_inv h e f false c p ih
  | step_once h e f c p _ ih => exact addListener_inv h e f true c p ih
  | step_off h e f _ ih => exact off_inv h e f ih
  | step_emit h throws fuel e a _ ih =>
    exact inv_of_evolves (emitFuel_evolves throws fuel 0 h e a) ih
  | step_reset h _ _ => exact reset_inv h
  | step_setMax h n _ ih => exact setMaxListeners_inv h n ih

/-- `getTotalListenerCount` (private): wildcard list length plus the sum
of the lengths of every event's list. -/
def getTotalListenerCount (h : EventHub) : Nat :=
  h.wildcardListeners.length + (h.events.map (fun p => p.2.length)).sum

/-- The sequence whose length `listenerCount` reports. -/
def seqOf (h : EventHub) (event : String) : List Listener :=
  if event = "*" ∧ h.wildcardEnabled = true then h.wildcardListeners
  else (mapGet h.events event).getD []

theorem listenerCount_eq_length_seqOf (h : EventHub) (event : String) :
    listenerCount h event = (seqOf h event).length := by
  unfold listenerCount seqOf
  by_cases hc : event = "*" ∧ h.wildcardEnabled = true
  · rw [if_pos hc, if_pos hc]
  · rw [if_neg hc, if_neg hc]

/-- Ordering of two specific-fan-out calls: if `l1` must come before
`l2` in a stably sorted sequence — because its priority is strictly
higher, or because the priorities are equal and `l1` was registered
first (smaller allocation identity) — then `l1`'s call index is strictly
smaller than `l2`'s in the dispatch's own-depth specific calls. -/
theorem specific_call_order (s : EventHub) (hs : Reachable s)
    (throws : Nat → Option Nat) (fuel : Nat) (e : String) (args : List Arg)
    (ls : List Listener) (l1 l2 : Listener)
    (hev : e ≠ "error") (hg : mapGet s.events e = some ls)
    (h1 : l1 ∈ ls) (h2 : l2 ∈ ls)
    (hord : l2.priority < l1.priority ∨
      (l1.priority = l2.priority ∧ l1.lid < l2.lid)) :
    ∃ i j : Nat, i < j ∧
      (((emitFuel throws (fuel + 1) 0 s e args).2.1).filter
          (isCallWithArgs 0 args))[i]?
        = some (Tr.call 0 l1.handler l1.context args) ∧
      (((emitFuel throws (fuel + 1) 0 s e args).2.1).filter
          (isCallWithArgs 0 args))[j]?
        = some (Tr.call 0 l2.handler l2.context args) := by
  rw [emitFuel_filter_spec throws fuel 0 s e args ls hev hg]
  have hsorted : StableSorted ls := by
    have hin := (reachable_inv s hs).1.1 e
    rw [hg] at hin
    simpa using hin
  obtain ⟨i, hi, hil⟩ := List.mem_iff_getElem.mp h1
  obtain ⟨j, hj, hjl⟩ := List.mem_iff_getElem.mp h2
  have hlt : i < j := by
    rcases lt_trichotomy i j with hij | hij | hij
    · exact hij
    · exfalso
      have hll : l1 = l2 := by
        subst hij
        rw [← hil, ← hjl]
      rcases hord with hp | ⟨_, hlid⟩
      · rw [hll] at hp
        exact lt_irrefl _ hp
      · rw [hll] at hlid
        exact lt_irrefl _ hlid
    · exfalso
      have hpij := (List.pairwise_iff_getElem.mp hsorted) j i hj hi hij
      rw [hil, hjl] at hpij
      rcases hord with hp | ⟨hpe, hlid⟩
      · exact absurd (lt_of_lt_of_le hp hpij.1) (lt_irrefl _)
      · exact absurd (lt_trans hlid (hpij.2 hpe)) (lt_irrefl _)
  refine ⟨i, j, hlt, ?_, ?_⟩
  · rw [List.getElem?_map, List.getElem?_eq_getElem hi, hil]
    rfl
  · rw [List.getElem?_map, List.getElem?_eq_getElem hj, hjl]
    rfl

/-- Claim C2: for listeners registered on event `e` (not the dedicated
error event), any dispatch of `e` invokes a strictly higher-priority
listener strictly before a lower-priority one within the specific
fan-out, and among equal-priority listeners invocation follows
registration order (the earlier-registered record, i.e. the one with the
smaller allocation identity, is invoked first). -/
theorem priority_order_c2 (s : EventHub) (hs : Reachable s)
    (throws : Nat → Option Nat) (fuel : Nat) (e : String) (args : List Arg)
    (ls : List Listener) (hev : e ≠ "error")
    (hg : mapGet s.events e = some ls) :
    (∀ l1 l2 : Listener, l1 ∈ ls → l2 ∈ ls → l2.priority < l1.priority →
      ∃ i j : Nat, i < j ∧
        (((emitFuel throws (fuel + 1) 0 s e args).2.1).filter
            (isCallWithArgs 0 args))[i]?
          = some (Tr.call 0 l1.handler l1.context args) ∧
        (((emitFuel throws (fuel + 1) 0 s e args).2.1).filter
            (isCallWithArgs 0 args))[j]?
          = some (Tr.call 0 l2.handler l2.context args)) ∧
    (∀ l1 l2 : Listener, l1 ∈ ls → l2 ∈ ls → l1.priority = l2.priority →
      l1.lid < l2.lid →
      ∃ i j : Nat, i < j ∧
        (((emitFuel throws (fuel + 1) 0 s e args).2.1).filter
            (isCallWithArgs 0 args))[i]?
          = some (Tr.call 0 l1.handler l1.context args) ∧
        (((emitFuel throws (fuel + 1) 0 s e args).2.1).filter
            (isCallWithArgs 0 args))[j]?
          = some (Tr.call 0 l2.handler l2.context args)) := by
  constructor
  · intro l1 l2 h1 h2 hp
    exact specific_call_order s hs throws fuel e args ls l1 l2 hev hg h1 h2
      (Or.inl hp)
  · intro l1 l2 h1 h2 hpe hlid
    exact specific_call_order s hs throws fuel e args ls l1 l2 hev hg h1 h2
      (Or.inr ⟨hpe, hlid⟩)

/-- Claim C10: wildcard listeners are invoked with the event name
prepended to the argument list, specific listeners with the unchanged
argument list; in both fan-outs the recorded receiver is the record's
bound context (`none` standing for the dispatcher itself). -/
theorem wildcard_prepend_c10 (s : EventHub) (throws : Nat → Option Nat)
    (fuel : Nat) (e : String) (args : List Arg) :
    (s.wildcardEnabled = true →
      ((emitFuel throws (fuel + 1) 0 s e args).2.1).filter
          (isCallWithArgs 0 (Arg.str e :: args))
        = s.wildcardListeners.map
            (fun l => Tr.call 0 l.handler l.context (Arg.str e :: args))) ∧
    (∀ ls : List Listener, e ≠ "error" → mapGet s.events e = some ls →
      ((emitFuel throws (fuel + 1) 0 s e args).2.1).filter
          (isCallWithArgs 0 args)
        = ls.map (fun l => Tr.call 0 l.handler l.context args)) := by
  constructor
  · intro hwe
    exact emitFuel_filter_wild throws fuel 0 s e args hwe
  · intro ls hev hg
    exact emitFuel_filter_spec throws fuel 0 s e args ls hev hg

/-- Claim C4: a throwing listener stops neither the remaining listeners
of its fan-out's snapshot nor the other fan-out, and the dispatch still
resolves to `true`. -/
theorem error_isolation_c4 (s : EventHub) (throws : Nat → Option Nat)
    (fuel : Nat) (e : String) (args : List Arg) (ls : List Listener)
    (lt : Listener) (err : Nat)
    (hev : e ≠ "error") (hg : mapGet s.events e = some ls)
    (hlt : lt ∈ ls) (hthrow : throws lt.handler = some err) :
    (emitFuel throws (fuel + 1) 0 s e args).2.2 = true ∧
    (∀ l ∈ ls, Tr.call 0 l.handler l.context args
      ∈ (emitFuel throws (fuel + 1) 0 s e args).2.1) ∧
    (s.wildcardEnabled = true → ∀ l ∈ s.wildcardListeners,
      Tr.call 0 l.handler l.context (Arg.str e :: args)
        ∈ (emitFuel throws (fuel + 1) 0 s e args).2.1) := by
  refine ⟨rfl, ?_, ?_⟩
  · intro l hl
    have hmem : Tr.call 0 l.handler l.context args
        ∈ ((emitFuel throws (fuel + 1) 0 s e args).2.1).filter
          (isCallWithArgs 0 args) := by
      rw [emitFuel_filter_spec throws fuel 0 s e args ls hev hg]
      exact List.mem_map_of_mem _ hl
    exact List.mem_of_mem_filter hmem
  · intro hwe l hl
    have hmem : Tr.call 0 l.handler l.context (Arg.str e :: args)
        ∈ ((emitFuel throws (fuel + 1) 0 s e args).2.1).filter
          (isCallWithArgs 0 (Arg.str e :: args)) := by
      rw [emitFuel_filter_wild throws fuel 0 s e args hwe]
      exact List.mem_map_of_mem _ hl
    exact List.mem_of_mem_filter hmem

theorem listenerCount_wild_enabled (h : EventHub)
    (hwe : h.wildcardEnabled = true) :
    listenerCount h "*" = h.wildcardListeners.length := by
  unfold listenerCount
  rw [if_pos ⟨rfl, hwe⟩]

theorem listenerCount_named (h : EventHub) (e : String) (he : e ≠ "*") :
    listenerCount h e = ((mapGet h.events e).getD []).length := by
  unfold listenerCount
  rw [if_neg (fun hc => he hc.1)]

theorem seqOf_wild_enabled (h : EventHub) (hwe : h.wildcardEnabled = true) :
    seqOf h "*" = h.wildcardListeners := by
  unfold seqOf
  rw [if_pos ⟨rfl, hwe⟩]

theorem seqOf_named (h : EventHub) (e : String) (he : e ≠ "*") :
    seqOf h e = (mapGet h.events e).getD [] := by
  unfold seqOf
  rw [if_neg (fun hc => he hc.1)]

theorem hasEvent_named (h : EventHub) (e : String) (he : e ≠ "*") :
    hasEvent h e = mapHas h.events e := by
  unfold hasEvent
  rw [if_neg (fun hc => he hc.1)]

theorem addListener_preserves_key (s : EventHub) (event : String) (f : Nat)
    (o : Bool) (c : Option Nat) (p : Int) (k : String)
    (hk : mapHas s.events k = true) :
    mapHas (addListener s event f o c p).events k = true := by
  by_cases h2 : event = "*"
  · subst h2
    cases hw : s.wildcardEnabled with
    | false =>
      rw [addListener_wildcard_disabled s f o c p hw]
      exact hk
    | true =>
      rw [addListener_wild s f o c p hw]
      exact hk
  · rw [addListener_named s event f o c p h2]
    exact mapHas_mapSet_true _ _ _ _ hk

theorem listenerCount_update_wild (s : EventHub) (wl : List Listener)
    (n : Nat) (hwe : s.wildcardEnabled = true) :
    listenerCount { s with wildcardListeners := wl, nextLid := n } "*"
      = wl.length := by
  unfold listenerCount
  rw [if_pos ⟨rfl, hwe⟩]

theorem listenerCount_update_events (s : EventHub) (m : EventMap) (n : Nat)
    (e : String) (he : e ≠ "*") :
    listenerCount { s with events := m, nextLid := n } e
      = ((mapGet m e).getD []).length := by
  unfold listenerCount
  rw [if_neg (fun hc => he hc.1)]

theorem listenerCount_set_events (s : EventHub) (m : EventMap) (e : String)
    (he : e ≠ "*") :
    listenerCount { s with events := m } e
      = ((mapGet m e).getD []).length := by
  unfold listenerCount
  rw [if_neg (fun hc => he hc.1)]

theorem seqOf_update_wild (s : EventHub) (wl : List Listener) (n : Nat)
    (hwe : s.wildcardEnabled = true) :
    seqOf { s with wildcardListeners := wl, nextLid := n } "*" = wl := by
  unfold seqOf
  rw [if_pos ⟨rfl, hwe⟩]

theorem seqOf_update_events (s : EventHub) (m : EventMap) (n : Nat)
    (e : String) (he : e ≠ "*") :
    seqOf { s with events := m, nextLid := n } e = (mapGet m e).getD [] := by
  unfold seqOf
  rw [if_neg (fun hc => he hc.1)]

/-- Claim C1 (amended): a one-shot listener whose handler completes
without throwing is removed from the live sequence once the dispatch
completes — the removal happens inside the `try` block, after a
successful invocation only. -/
theorem once_removed_on_success_c1 (s : EventHub) (throws : Nat → Option Nat)
    (fuel : Nat) (e : String) (args : List Arg) :
    (∀ (ls : List Listener) (l : Listener), e ≠ "error" →
      mapGet s.events e = some ls → l ∈ ls → l.once = true →
      throws l.handler = none →
      AbsentSpec e l.lid (emitFuel throws (fuel + 1) 0 s e args).1) ∧
    (∀ l : Listener, s.wildcardEnabled = true → l ∈ s.wildcardListeners →
      l.once = true → throws l.handler = none →
      AbsentWild l.lid (emitFuel throws (fuel + 1) 0 s e args).1) := by
  constructor
  · intro ls l hev hg hl ho hth
    exact emitFuel_once_removed_spec throws fuel s e args ls l hev hg hl ho hth
  · intro l hwe hl ho hth
    exact emitFuel_once_removed_wild throws fuel s e args l hwe hl ho hth

/-- Claim C1 (counterexample): a one-shot listener whose handler THROWS
is not pruned — the removal sits inside the `try` block and is skipped
when the call throws.  Here the listener is invoked (its call is in the
trace) yet `listenerCount` still reports 1 after the dispatch. -/
theorem once_throwing_not_removed_c1_cex :
    Tr.call 0 1 none []
        ∈ (emit (fun hd => if hd = 1 then some 7 else none) 3
            (once (construct ⟨none, none, none, none, none⟩) "x" 1 none 0)
            "x" []).2.1 ∧
    listenerCount
        (emit (fun hd => if hd = 1 then some 7 else none) 3
          (once (construct ⟨none, none, none, none, none⟩) "x" 1 none 0)
          "x" []).1 "x" = 1 := by
  constructor <;> decide

/-- Claim C5 (amended): a caught listener error triggers a nested
error-event dispatch carrying exactly (error value, original event name,
failing handler reference) whenever the `"error"` KEY is present in the
map — which is what the source checks (`this.events.has('error')`) — and
the dispatch still resolves to `true`; when the key is absent, no
error-event dispatch occurs.  Key presence is implied by, but not
equivalent to, a positive listener count (an empty entry can remain after
removal by handler). -/
theorem error_routing_c5 (s : EventHub) (throws : Nat → Option Nat)
    (fuel : Nat) (e : String) (args : List Arg) :
    (emitFuel throws (fuel + 2) 0 s e args).2.2 = true ∧
    (∀ (ls : List Listener) (l : Listener) (err : Nat), e ≠ "error" →
      mapGet s.events e = some ls → l ∈ ls → throws l.handler = some err →
      mapHas s.events "error" = true →
      Tr.dispatch 1 "error"
          [Arg.errVal err, Arg.str e, Arg.handlerRef l.handler]
        ∈ (emitFuel throws (fuel + 2) 0 s e args).2.1) ∧
    (∀ (l : Listener) (err : Nat), s.wildcardEnabled = true →
      l ∈ s.wildcardListeners → throws l.handler = some err →
      mapHas s.events "error" = true →
      Tr.dispatch 1 "error"
          [Arg.errVal err, Arg.str e, Arg.handlerRef l.handler]
        ∈ (emitFuel throws (fuel + 2) 0 s e args).2.1) ∧
    (e ≠ "error" → mapHas s.events "error" = false →
      NoErrorDispatch (emitFuel throws (fuel + 2) 0 s e args).2.1) := by
  refine ⟨rfl, ?_, ?_, ?_⟩
  · intro ls l err hev hg hl hth hhas
    exact emitFuel_error_dispatch_spec throws fuel s e args ls l err
      hev hg hl hth hhas
  · intro l err hwe hl hth hhas
    exact emitFuel_error_dispatch_wild throws fuel s e args l err
      hwe hl hth hhas
  · intro hev hh
    exact emitFuel_no_error throws (fuel + 2) 0 s e args hev hh

/-- Claim C5 (counterexample): after `on('error', f); off('error', f)` an
empty `"error"` entry remains, so `listenerCount('error')` is 0 — no
error listener is registered — yet a caught error still triggers an
error-event dispatch (observable here in the trace). -/
theorem error_dispatch_without_listener_c5_cex :
    listenerCount
        (on' (off (on' (construct ⟨none, none, none, none, none⟩)
            "error" 9 none 0) (some "error") (some 9)) "x" 1 none 0)
        "error" = 0 ∧
    Tr.dispatch 1 "error" [Arg.errVal 7, Arg.str "x", Arg.handlerRef 1]
      ∈ (emit (fun hd => if hd = 1 then some 7 else none) 4
          (on' (off (on' (construct ⟨none, none, none, none, none⟩)
            "error" 9 none 0) (some "error") (some 9)) "x" 1 none 0)
          "x" []).2.1 := by
  constructor <;> decide

/-- Claim C3: in every reachable state, every listener sequence (each map
entry and the wildcard list) is sorted by non-increasing priority with
equal-priority records in registration order; reachability closes over
all public operations, so each of them preserves the invariant. -/
theorem sorted_invariant_c3 (h : EventHub) (hr : Reachable h) :
    (∀ k, StableSorted ((mapGet h.events k).getD [])) ∧
    StableSorted h.wildcardListeners :=
  ⟨(reachable_inv h hr).1.1, (reachable_inv h hr).1.2⟩

/-- Claim C6: removing the last record by handler keeps the event key
registered (`hasEvent` true, key in `eventNames`, count 0), one-shot
pruning during a dispatch keeps every key, and only `off(e)`, `off()`
and `reset()` remove keys, while registration never does. -/
theorem key_retention_c6 :
    (∀ (s : EventHub) (e : String) (f : Nat), e ≠ "*" →
      mapHas s.events e = true →
      hasEvent (off s (some e) (some f)) e = true ∧
      e ∈ eventNames (off s (some e) (some f)) ∧
      (((mapGet s.events e).getD []).filter (fun l => l.handler != f) = [] →
        listenerCount (off s (some e) (some f)) e = 0)) ∧
    (∀ (s : EventHub) (throws : Nat → Option Nat) (fuel : Nat)
      (e k : String) (args : List Arg), k ≠ "*" →
      mapHas s.events k = true →
      hasEvent (emitFuel throws fuel 0 s e args).1 k = true) ∧
    (∀ (s : EventHub) (e : String), e ≠ "*" →
      mapHas (off s (some e) none).events e = false) ∧
    (∀ (s : EventHub) (f : Option Nat), (off s none f).events = []) ∧
    (∀ s : EventHub, (reset s).events = []) ∧
    (∀ (s : EventHub) (e e' : String) (f : Nat) (c : Option Nat) (p : Int),
      mapHas s.events e = true →
      mapHas (on' s e' f c p).events e = true ∧
      mapHas (once s e' f c p).events e = true) := by
  refine ⟨?_, ?_, ?_, ?_, ?_, ?_⟩
  · intro s e f hne hhas
    cases hg : mapGet s.events e with
    | none =>
      rw [mapHas, hg] at hhas
      simp at hhas
    | some ls =>
      have hoff : off s (some e) (some f) =
          { s with
            events := mapSet s.events e
              (ls.filter (fun l => l.handler != f)) } := by
        simp only [off, hg]
        rw [if_neg (fun hc => hne hc.1)]
      rw [hoff]
      refine ⟨?_, ?_, ?_⟩
      · rw [hasEvent_named _ e hne]
        exact mapHas_mapSet_self _ _ _
      · rw [eventNames, ← mapHas_iff_mem_mapKeys]
        exact mapHas_mapSet_self _ _ _
      · intro hemp
        simp only [Option.getD_some] at hemp
        rw [listenerCount_set_events s _ e hne, mapGet_mapSet_self]
        simp [hemp]
  · intro s throws fuel e k args hne hhas
    rw [hasEvent_named _ k hne]
    rw [(emitFuel_evolves throws fuel 0 s e args).1 k]
    exact hhas
  · intro s e hne
    have hoff : off s (some e) none =
        { s with events := mapDelete s.events e } := by
      simp only [off]
      rw [if_neg (fun hc => hne hc.1)]
    rw [hoff]
    show mapHas (mapDelete s.events e) e = false
    rw [mapHas, mapGet_mapDelete_self]
    rfl
  · intro s f
    rfl
  · intro s
    rfl
  · intro s e e' f c p hhas
    exact ⟨addListener_preserves_key s e' f false c p e hhas,
      addListener_preserves_key s e' f true c p e hhas⟩

/-- Claim C7: the max-listener limit is advisory — even when the total
listener count is at or above it, `on`/`once` still insert the new record
and `listenerCount` grows by one. -/
theorem advisory_limit_c7 (s : EventHub) (e : String) (f : Nat)
    (c : Option Nat) (p : Int)
    (hmax : s.maxListeners ≤ getTotalListenerCount s)
    (hok : ¬(e = "*" ∧ s.wildcardEnabled = false)) :
    listenerCount (on' s e f c p) e = listenerCount s e + 1 ∧
    (⟨s.nextLid, f, false, p, c⟩ : Listener) ∈ seqOf (on' s e f c p) e ∧
    listenerCount (once s e f c p) e = listenerCount s e + 1 ∧
    (⟨s.nextLid, f, true, p, c⟩ : Listener) ∈ seqOf (once s e f c p) e := by
  by_cases he : e = "*"
  · subst he
    have hwe : s.wildcardEnabled = true := by
      cases hb : s.wildcardEnabled with
      | false => exact absurd ⟨rfl, hb⟩ hok
      | true => rfl
    unfold on' once
    rw [addListener_wild s f false c p hwe, addListener_wild s f true c p hwe]
    refine ⟨?_, ?_, ?_, ?_⟩
    · rw [listenerCount_update_wild s _ _ hwe, listenerCount_wild_enabled s hwe]
      exact length_insertListenerByPriority _ _
    · rw [seqOf_update_wild s _ _ hwe]
      exact self_mem_insertListenerByPriority _ _
    · rw [listenerCount_update_wild s _ _ hwe, listenerCount_wild_enabled s hwe]
      exact length_insertListenerByPriority _ _
    · rw [seqOf_update_wild s _ _ hwe]
      exact self_mem_insertListenerByPriority _ _
  · unfold on' once
    rw [addListener_named s e f false c p he, addListener_named s e f true c p he]
    refine ⟨?_, ?_, ?_, ?_⟩
    · rw [listenerCount_update_events s _ _ e he, listenerCount_named s e he,
        mapGet_mapSet_self]
      exact length_insertListenerByPriority _ _
    · rw [seqOf_update_events s _ _ e he, mapGet_mapSet_self]
      exact self_mem_insertListenerByPriority _ _
    · rw [listenerCount_update_events s _ _ e he, listenerCount_named s e he,
        mapGet_mapSet_self]
      exact length_insertListenerByPriority _ _
    · rw [seqOf_update_events s _ _ e he, mapGet_mapSet_self]
      exact self_mem_insertListenerByPriority _ _

/-- Claim C8: with wildcard support disabled, `on('*')` and `once('*')`
leave the state untouched and `hasEvent('*')` is false in every reachable
state. -/
theorem wildcard_disabled_noop_c8 (s : EventHub) (hr : Reachable s)
    (hw : s.wildcardEnabled = false) (f : Nat) (c : Option Nat) (p : Int) :
    on' s "*" f c p = s ∧ once s "*" f c p = s ∧ hasEvent s "*" = false := by
  refine ⟨addListener_wildcard_disabled s f false c p hw,
    addListener_wildcard_disabled s f true c p hw, ?_⟩
  unfold hasEvent
  rw [if_neg (by simp [hw])]
  exact (reachable_inv s hr).2.2 hw

/-- Claim C9: `off(e, f)` rewrites `e`'s sequence to exactly the records
whose handler differs from `f` (an order-preserving sublist containing
every non-matching record and no matching one), and leaves every other
event's sequence and the wildcard list unchanged. -/
theorem off_removes_exact_c9 (s : EventHub) (e : String) (f : Nat)
    (ls : List Listener) (hcond : ¬(e = "*" ∧ s.wildcardEnabled = true))
    (hg : mapGet s.events e = some ls) :
    mapGet (off s (some e) (some f)).events e
        = some (ls.filter (fun l => l.handler != f)) ∧
    (∀ x ∈ ls.filter (fun l => l.handler != f), x.handler ≠ f) ∧
    List.Sublist (ls.filter (fun l => l.handler != f)) ls ∧
    (∀ x ∈ ls, x.handler ≠ f → x ∈ ls.filter (fun l => l.handler != f)) ∧
    (∀ k, k ≠ e → mapGet (off s (some e) (some f)).events k
      = mapGet s.events k) ∧
    (off s (some e) (some f)).wildcardListeners = s.wildcardListeners := by
  have hoff : off s (some e) (some f) =
      { s with
        events := mapSet s.events e (ls.filter (fun l => l.handler != f)) } := by
    simp only [off, hg]
    rw [if_neg hcond]
  rw [hoff]
  refine ⟨mapGet_mapSet_self _ _ _, ?_, List.filter_sublist _, ?_, ?_, rfl⟩
  · intro x hx
    simp only [List.mem_filter, bne_iff_ne] at hx
    exact hx.2
  · intro x hx hxf
    simp only [List.mem_filter, bne_iff_ne]
    exact ⟨hx, hxf⟩
  · intro k hk
    exact mapGet_mapSet_ne _ _ _ _ hk

theorem once_removed_on_success_c1_witness :
    ("x" : String) ≠ "error" ∧
    mapGet (once (construct ⟨none, none, none, none, none⟩)
        "x" 1 none 0).events "x"
      = some [⟨0, 1, true, 0, none⟩] ∧
    AbsentSpec "x" 0
      (emitFuel (fun _ => none) 1 0
        (once (construct ⟨none, none, none, none, none⟩) "x" 1 none 0)
        "x" []).1 :=
  ⟨by decide, by decide,
    (once_removed_on_success_c1
        (once (construct ⟨none, none, none, none, none⟩) "x" 1 none 0)
        (fun _ => none) 0 "x" []).1
      [⟨0, 1, true, 0, none⟩] ⟨0, 1, true, 0, none⟩
      (by decide) (by decide) (by decide) rfl rfl⟩

theorem priority_order_c2_witness :
    Reachable (on' (on' (on' (construct ⟨none, none, none, none, none⟩)
      "task" 1 none 1) "task" 2 none 10) "task" 3 none 1) ∧
    mapGet (on' (on' (on' (construct ⟨none, none, none, none, none⟩)
        "task" 1 none 1) "task" 2 none 10) "task" 3 none 1).events "task"
      = some [⟨1, 2, false, 10, none⟩, ⟨0, 1, false, 1, none⟩,
          ⟨2, 3, false, 1, none⟩] ∧
    (∃ i j : Nat, i < j ∧
      (((emitFuel (fun _ => none) 1 0
          (on' (on' (on' (construct ⟨none, none, none, none, none⟩)
            "task" 1 none 1) "task" 2 none 10) "task" 3 none 1)
          "task" [Arg.val 5]).2.1).filter
            (isCallWithArgs 0 [Arg.val 5]))[i]?
        = some (Tr.call 0 2 none [Arg.val 5]) ∧
      (((emitFuel (fun _ => none) 1 0
          (on' (on' (on' (construct ⟨none, none, none, none, none⟩)
            "task" 1 none 1) "task" 2 none 10) "task" 3 none 1)
          "task" [Arg.val 5]).2.1).filter
            (isCallWithArgs 0 [Arg.val 5]))[j]?
        = some (Tr.call 0 1 none [Arg.val 5])) ∧
    (∃ i j : Nat, i < j ∧
      (((emitFuel (fun _ => none) 1 0
          (on' (on' (on' (construct ⟨none, none, none, none, none⟩)
            "task" 1 none 1) "task" 2 none 10) "task" 3 none 1)
          "task" [Arg.val 5]).2.1).filter
            (isCallWithArgs 0 [Arg.val 5]))[i]?
        = some (Tr.call 0 1 none [Arg.val 5]) ∧
      (((emitFuel (fun _ => none) 1 0
          (on' (on' (on' (construct ⟨none, none, none, none, none⟩)
            "task" 1 none 1) "task" 2 none 10) "task" 3 none 1)
          "task" [Arg.val 5]).2.1).filter
            (isCallWithArgs 0 [Arg.val 5]))[j]?
        = some (Tr.call 0 3 none [Arg.val 5])) :=
  ⟨Reachable.step_on _ "task" 3 none 1
      (Reachable.step_on _ "task" 2 none 10
        (Reachable.step_on _ "task" 1 none 1
          (Reachable.init ⟨none, none, none, none, none⟩))),
    by decide,
    (priority_order_c2
        (on' (on' (on' (construct ⟨none, none, none, none, none⟩)
          "task" 1 none 1) "task" 2 none 10) "task" 3 none 1)
        (Reachable.step_on _ "task" 3 none 1
          (Reachable.step_on _ "task" 2 none 10
            (Reachable.step_on _ "task" 1 none 1
              (Reachable.init ⟨none, none, none, none, none⟩))))
        (fun _ => none) 0 "task" [Arg.val 5]
        [⟨1, 2, false, 10, none⟩, ⟨0, 1, false, 1, none⟩,
          ⟨2, 3, false, 1, none⟩]
        (by decide) (by decide)).1
      ⟨1, 2, false, 10, none⟩ ⟨0, 1, false, 1, none⟩
      (by decide) (by decide) (by decide),
    (priority_order_c2
        (on' (on' (on' (construct ⟨none, none, none, none, none⟩)
          "task" 1 none 1) "task" 2 none 10) "task" 3 none 1)
        (Reachable.step_on _ "task" 3 none 1
          (Reachable.step_on _ "task" 2 none 10
            (Reachable.step_on _ "task" 1 none 1
              (Reachable.init ⟨none, none, none, none, none⟩))))
        (fun _ => none) 0 "task" [Arg.val 5]
        [⟨1, 2, false, 10, none⟩, ⟨0, 1, false, 1, none⟩,
          ⟨2, 3, false, 1, none⟩]
        (by decide) (by decide)).2
      ⟨0, 1, false, 1, none⟩ ⟨2, 3, false, 1, none⟩
      (by decide) (by decide) (by decide) (by decide)⟩

theorem sorted_invariant_c3_witness :
    Reachable (once (on' (construct ⟨none, none, none, none, none⟩)
      "task" 1 none 1) "task" 2 none 10) ∧
    ((∀ k, StableSorted
        ((mapGet (once (on' (construct ⟨none, none, none, none, none⟩)
          "task" 1 none 1) "task" 2 none 10).events k).getD [])) ∧
      StableSorted (once (on' (construct ⟨none, none, none, none, none⟩)
        "task" 1 none 1) "task" 2 none 10).wildcardListeners) :=
  ⟨Reachable.step_once _ "task" 2 none 10
      (Reachable.step_on _ "task" 1 none 1
        (Reachable.init ⟨none, none, none, none, none⟩)),
    sorted_invariant_c3 _
      (Reachable.step_once _ "task" 2 none 10
        (Reachable.step_on _ "task" 1 none 1
          (Reachable.init ⟨none, none, none, none, none⟩)))⟩

theorem error_isolation_c4_witness :
    ("x" : String) ≠ "error" ∧
    mapGet (on' (on' (construct ⟨none, none, none, none, none⟩)
        "x" 1 none 10) "x" 2 none 0).events "x"
      = some [⟨0, 1, false, 10, none⟩, ⟨1, 2, false, 0, none⟩] ∧
    (fun hd => if hd = 1 then some 7 else none) 1 = some 7 ∧
    ((emitFuel (fun hd => if hd = 1 then some 7 else none) 1 0
        (on' (on' (construct ⟨none, none, none, none, none⟩)
          "x" 1 none 10) "x" 2 none 0) "x" []).2.2 = true ∧
      (∀ l ∈ [(⟨0, 1, false, 10, none⟩ : Listener), ⟨1, 2, false, 0, none⟩],
        Tr.call 0 l.handler l.context []
          ∈ (emitFuel (fun hd => if hd = 1 then some 7 else none) 1 0
              (on' (on' (construct ⟨none, none, none, none, none⟩)
                "x" 1 none 10) "x" 2 none 0) "x" []).2.1) ∧
      ((on' (on' (construct ⟨none, none, none, none, none⟩)
          "x" 1 none 10) "x" 2 none 0).wildcardEnabled = true →
        ∀ l ∈ (on' (on' (construct ⟨none, none, none, none, none⟩)
            "x" 1 none 10) "x" 2 none 0).wildcardListeners,
          Tr.call 0 l.handler l.context [Arg.str "x"]
            ∈ (emitFuel (fun hd => if hd = 1 then some 7 else none) 1 0
                (on' (on' (construct ⟨none, none, none, none, none⟩)
                  "x" 1 none 10) "x" 2 none 0) "x" []).2.1)) :=
  ⟨by decide, by decide, rfl,
    error_isolation_c4
      (on' (on' (construct ⟨none, none, none, none, none⟩)
        "x" 1 none 10) "x" 2 none 0)
      (fun hd => if hd = 1 then some 7 else none) 0 "x" []
      [⟨0, 1, false, 10, none⟩, ⟨1, 2, false, 0, none⟩]
      ⟨0, 1, false, 10, none⟩ 7
      (by decide) (by decide) (by decide) rfl⟩

theorem error_routing_c5_witness :
    ("x" : String) ≠ "error" ∧
    mapGet (on' (on' (construct ⟨none, none, none, none, none⟩)
        "error" 5 none 0) "x" 1 none 0).events "x"
      = some [⟨1, 1, false, 0, none⟩] ∧
    mapHas (on' (on' (construct ⟨none, none, none, none, none⟩)
        "error" 5 none 0) "x" 1 none 0).events "error" = true ∧
    Tr.dispatch 1 "error" [Arg.errVal 7, Arg.str "x", Arg.handlerRef 1]
      ∈ (emitFuel (fun hd => if hd = 1 then some 7 else none) 2 0
          (on' (on' (construct ⟨none, none, none, none, none⟩)
            "error" 5 none 0) "x" 1 none 0) "x" []).2.1 ∧
    (emitFuel (fun hd => if hd = 1 then some 7 else none) 2 0
        (on' (on' (construct ⟨none, none, none, none, none⟩)
          "error" 5 none 0) "x" 1 none 0) "x" []).2.2 = true :=
  ⟨by decide, by decide, by decide,
    (error_routing_c5
        (on' (on' (construct ⟨none, none, none, none, none⟩)
          "error" 5 none 0) "x" 1 none 0)
        (fun hd => if hd = 1 then some 7 else none) 0 "x" []).2.1
      [⟨1, 1, false, 0, none⟩] ⟨1, 1, false, 0, none⟩ 7
      (by decide) (by decide) (by decide) rfl (by decide),
    (error_routing_c5
        (on' (on' (construct ⟨none, none, none, none, none⟩)
          "error" 5 none 0) "x" 1 none 0)
        (fun hd => if hd = 1 then some 7 else none) 0 "x" []).1⟩

theorem key_retention_c6_witness :
    ("x" : String) ≠ "*" ∧
    mapHas (on' (construct ⟨none, none, none, none, none⟩)
      "x" 1 none 0).events "x" = true ∧
    hasEvent (off (on' (construct ⟨none, none, none, none, none⟩)
      "x" 1 none 0) (some "x") (some 1)) "x" = true ∧
    "x" ∈ eventNames (off (on' (construct ⟨none, none, none, none, none⟩)
      "x" 1 none 0) (some "x") (some 1)) ∧
    listenerCount (off (on' (construct ⟨none, none, none, none, none⟩)
      "x" 1 none 0) (some "x") (some 1)) "x" = 0 := by
  have h := key_retention_c6.1
    (on' (construct ⟨none, none, none, none, none⟩) "x" 1 none 0)
    "x" 1 (by decide) (by decide)
  exact ⟨by decide, by decide, h.1, h.2.1, h.2.2 (by decide)⟩

theorem advisory_limit_c7_witness :
    (on' (construct ⟨some 1, none, none, none, none⟩)
      "a" 3 none 0).maxListeners
        ≤ getTotalListenerCount
          (on' (construct ⟨some 1, none, none, none, none⟩) "a" 3 none 0) ∧
    ¬(("a" : String) = "*" ∧
      (on' (construct ⟨some 1, none, none, none, none⟩)
        "a" 3 none 0).wildcardEnabled = false) ∧
    listenerCount (on' (on' (construct ⟨some 1, none, none, none, none⟩)
        "a" 3 none 0) "a" 4 none 0) "a"
      = listenerCount (on' (construct ⟨some 1, none, none, none, none⟩)
        "a" 3 none 0) "a" + 1 ∧
    (⟨1, 4, false, 0, none⟩ : Listener)
      ∈ seqOf (on' (on' (construct ⟨some 1, none, none, none, none⟩)
        "a" 3 none 0) "a" 4 none 0) "a" := by
  have h := advisory_limit_c7
    (on' (construct ⟨some 1, none, none, none, none⟩) "a" 3 none 0)
    "a" 4 none 0 (by decide) (by decide)
  exact ⟨by decide, by decide, h.1, h.2.1⟩

theorem wildcard_disabled_noop_c8_witness :
    Reachable (on' (construct ⟨none, some false, none, none, none⟩)
      "a" 1 none 0) ∧
    (on' (construct ⟨none, some false, none, none, none⟩)
      "a" 1 none 0).wildcardEnabled = false ∧
    (on' (on' (construct ⟨none, some false, none, none, none⟩)
        "a" 1 none 0) "*" 9 none 0
      = on' (construct ⟨none, some false, none, none, none⟩) "a" 1 none 0 ∧
    once (on' (construct ⟨none, some false, none, none, none⟩)
        "a" 1 none 0) "*" 9 none 0
      = on' (construct ⟨none, some false, none, none, none⟩) "a" 1 none 0 ∧
    hasEvent (on' (construct ⟨none, some false, none, none, none⟩)
      "a" 1 none 0) "*" = false) :=
  ⟨Reachable.step_on _ "a" 1 none 0
      (Reachable.init ⟨none, some false, none, none, none⟩),
    rfl,
    wildcard_disabled_noop_c8
      (on' (construct ⟨none, some false, none, none, none⟩) "a" 1 none 0)
      (Reachable.step_on _ "a" 1 none 0
        (Reachable.init ⟨none, some false, none, none, none⟩))
      rfl 9 none 0⟩

theorem off_removes_exact_c9_witness :
    ¬(("x" : String) = "*" ∧
      (on' (on' (construct ⟨none, none, none, none, none⟩)
        "x" 1 none 0) "x" 2 none 0).wildcardEnabled = true) ∧
    mapGet (on' (on' (construct ⟨none, none, none, none, none⟩)
        "x" 1 none 0) "x" 2 none 0).events "x"
      = some [⟨0, 1, false, 0, none⟩, ⟨1, 2, false, 0, none⟩] ∧
    mapGet (off (on' (on' (construct ⟨none, none, none, none, none⟩)
        "x" 1 none 0) "x" 2 none 0) (some "x") (some 1)).events "x"
      = some (([⟨0, 1, false, 0, none⟩, ⟨1, 2, false, 0, none⟩] :
          List Listener).filter (fun l => l.handler != 1)) ∧
    (off (on' (on' (construct ⟨none, none, none, none, none⟩)
        "x" 1 none 0) "x" 2 none 0) (some "x") (some 1)).wildcardListeners
      = (on' (on' (construct ⟨none, none, none, none, none⟩)
        "x" 1 none 0) "x" 2 none 0).wildcardListeners := by
  have h := off_removes_exact_c9
    (on' (on' (construct ⟨none, none, none, none, none⟩)
      "x" 1 none 0) "x" 2 none 0)
    "x" 1 [⟨0, 1, false, 0, none⟩, ⟨1, 2, false, 0, none⟩]
    (by decide) (by decide)
  exact ⟨by decide, by decide, h.1, h.2.2.2.2.2⟩

theorem wildcard_prepend_c10_witness :
    (on' (on' (construct ⟨none, none, none, none, none⟩)
      "*" 5 (some 8) 0) "x" 1 none 0).wildcardEnabled = true ∧
    ("x" : String) ≠ "error" ∧
    mapGet (on' (on' (construct ⟨none, none, none, none, none⟩)
        "*" 5 (some 8) 0) "x" 1 none 0).events "x"
      = some [⟨1, 1, false, 0, none⟩] ∧
    ((emitFuel (fun _ => none) 1 0
        (on' (on' (construct ⟨none, none, none, none, none⟩)
          "*" 5 (some 8) 0) "x" 1 none 0) "x" [Arg.val 3]).2.1).filter
        (isCallWithArgs 0 (Arg.str "x" :: [Arg.val 3]))
      = (on' (on' (construct ⟨none, none, none, none, none⟩)
          "*" 5 (some 8) 0) "x" 1 none 0).wildcardListeners.map
          (fun l => Tr.call 0 l.handler l.context
            (Arg.str "x" :: [Arg.val 3])) ∧
    ((emitFuel (fun _ => none) 1 0
        (on' (on' (construct ⟨none, none, none, none, none⟩)
          "*" 5 (some 8) 0) "x" 1 none 0) "x" [Arg.val 3]).2.1).filter
        (isCallWithArgs 0 [Arg.val 3])
      = ([⟨1, 1, false, 0, none⟩] : List Listener).map
          (fun l => Tr.call 0 l.handler l.context [Arg.val 3]) :=
  ⟨rfl, by decide, by decide,
    (wildcard_prepend_c10
        (on' (on' (construct ⟨none, none, none, none, none⟩)
          "*" 5 (some 8) 0) "x" 1 none 0)
        (fun _ => none) 0 "x" [Arg.val 3]).1 rfl,
    (wildcard_prepend_c10
        (on' (on' (construct ⟨none, none, none, none, none⟩)
          "*" 5 (some 8) 0) "x" 1 none 0)
        (fun _ => none) 0 "x" [Arg.val 3]).2
      [⟨1, 1, false, 0, none⟩] (by decide) (by decide)⟩

end EventHubModel
